import Mathlib

/-!
Shallow embedding of `src/hardware/keysight-3000/protocol.c` from libsigrok
(the Keysight/Rigol oscilloscope block-protocol driver).

The embedding models:
- `parse_int` (built on C `strtol` base-10 semantics, including leading
  whitespace and sign skipping, the `e == str` / `*e != '\0'` checks and the
  `INT_MAX`/`INT_MIN` range checks);
- `keysight_read_header` (incremental `#<d><digits>` block-header decoder);
- `keysight_capture_start` and `keysight_channel_start` (SCPI interactions are
  modelled by an oracle environment `Env` giving each external call's result);
- `keysight_receive` (the per-readiness-event state machine step), including
  the chunked block reader, the analog/digital sample conversion and the
  channel/frame sequencing.

The SCPI transport byte stream is modelled by `Transport`: a byte list plus a
per-read-call delivery plan (`none` = read error, `some c` = deliver at most
`c` bytes), and a log of the byte counts requested by each read call.
Machine integers are modelled by `Nat`/`Int` (with explicit `% 2^64` where the
C code mixes `int` and `uint64_t`); C floats/doubles are modelled by `ℚ`, and
the `log10f` routine is a parameter `lg : ℚ → ℚ` of the state machine.
-/

namespace Keysight

/-- libsigrok `SR_OK` return code. -/
def SR_OK : Int := 0

/-- libsigrok `SR_ERR` return code (value `-1`). -/
def SR_ERR : Int := -1

/-- `ACQ_BUFFER_SIZE` from protocol.h: `64 * 1024`. -/
def ACQ_BUFFER_SIZE : Nat := 64 * 1024

/-- glib `G_IO_IN` readiness condition (value `1`). -/
def G_IO_IN : Int := 1

/-- C `INT_MAX` for 32-bit `int`. -/
def INT_MAX : Int := 2147483647

/-- C `INT_MIN` for 32-bit `int`. -/
def INT_MIN : Int := -2147483648

/-- C `LONG_MAX` for 64-bit `long`. -/
def LONG_MAX : Int := 9223372036854775807

/-- C `LONG_MIN` for 64-bit `long`. -/
def LONG_MIN : Int := -9223372036854775808

/-- Conversion of a C `int` value to `uint64_t` (as in
`devc->num_block_bytes = len;` where `len` is `int`). -/
def intToU64 (i : Int) : Nat := (i % (2 : Int) ^ 64).toNat

/-- C `isdigit` on a byte value: ASCII `'0'`..`'9'`. -/
def isDigitB (c : Nat) : Bool := decide (48 ≤ c) && decide (c ≤ 57)

/-- C `isspace` in the C locale: space or `'\t'`,`'\n'`,`'\v'`,`'\f'`,`'\r'`
(bytes 9..13), as skipped by `strtol`. -/
def isCSpace (c : Nat) : Bool := c == 32 || (decide (9 ≤ c) && decide (c ≤ 13))

/-- Decimal value of a digit-byte list (most significant first), as
accumulated by `strtol`'s digit loop. -/
def digitsVal (ds : List Nat) : Nat := ds.foldl (fun a c => a * 10 + (c - 48)) 0

/-- Embedding of `parse_int` (protocol.c:69-91): `strtol(str, &e, 10)`
followed by the checks `e == str`, `*e != '\0'`, `errno` (ERANGE), and
`tmp > INT_MAX || tmp < INT_MIN`.  The argument is the raw byte field;
C-string semantics end it at the first NUL byte.  `strtol` skips leading
C whitespace, accepts one optional `'+'`/`'-'`, then consumes a digit run;
`e` points just past the last digit (or at the start if no digits). -/
def parse_int (field : List Nat) : Option Int :=
  let s := field.takeWhile (fun c => c != 0)
  let ws := s.dropWhile isCSpace
  let body : List Nat :=
    if ws.head? = some 43 ∨ ws.head? = some 45 then ws.tail else ws
  let sgn : Int := if ws.head? = some 45 then -1 else 1
  let ds := body.takeWhile isDigitB
  if ds.isEmpty then none
  else if ¬ (body.drop ds.length).isEmpty then none
  else
    let v : Int := sgn * (digitsVal ds : Int)
    if v > LONG_MAX ∨ v < LONG_MIN then none
    else if v > INT_MAX ∨ v < INT_MIN then none
    else some v

/-- Channel kind (`SR_CHANNEL_ANALOG` vs `SR_CHANNEL_LOGIC`). -/
inductive ChanType
  | analog
  | digital
deriving DecidableEq, Repr

/-- An enabled channel: its index and kind (`struct sr_channel`'s fields used
by this driver). -/
structure Channel where
  index : Nat
  type : ChanType
deriving DecidableEq, Repr

/-- The driver's `enum state_e`. -/
inductive MachState
  | idle
  | digitizing
  | readingData
deriving DecidableEq, Repr

/-- The SCPI byte transport: pending data bytes, a per-read-call delivery plan
(`none` injects a read error, `some c` caps that call's delivery at `c`
bytes; an exhausted plan delivers everything requested), and a log of the
byte counts requested by successive `sr_scpi_read_data` calls. -/
structure Transport where
  plan : List (Option Nat)
  data : List Nat
  log : List Nat

/-- Embedding of one `sr_scpi_read_data(scpi, buf, req)` call: returns the
bytes delivered (`none` for a `-1` error return) and the advanced transport. -/
def readData (t : Transport) (req : Nat) : Option (List Nat) × Transport :=
  match t.plan with
  | [] =>
    let d := min req t.data.length
    (some (t.data.take d), ⟨[], t.data.drop d, t.log ++ [req]⟩)
  | none :: ps => (none, ⟨ps, t.data, t.log ++ [req]⟩)
  | some c :: ps =>
    let d := min (min req c) t.data.length
    (some (t.data.take d), ⟨ps, t.data.drop d, t.log ++ [req]⟩)

/-- The fields of `struct dev_context` used by the acquisition logic.  The
linked-list channel cursor `channel_entry` is modelled as an index `cursor`
into `enabled_channels`; the header prefix of `devc->buffer` together with
`num_header_bytes` is modelled as `headerBuf` (so `num_header_bytes` is
`headerBuf.length`).  Calibration arrays are index functions. -/
structure DevContext where
  limit_frames : Nat
  enabled_channels : List Channel
  cursor : Nat
  num_frames : Nat
  num_channel_bytes_total : Int
  num_channel_bytes : Nat
  headerBuf : List Nat
  num_block_bytes : Nat
  num_block_read : Nat
  state : MachState
  vert_reference : Nat → Int
  vert_origin : Nat → ℚ
  vert_offset : Nat → ℚ
  vert_inc : Nat → ℚ

/-- Result of `keysight_read_header`: the C `int` return (0 = header not yet
complete, -1 = error, otherwise the declared block length), the updated
device context and transport. -/
structure HdrOut where
  res : Int
  devc : DevContext
  t : Transport

/-- Final step of `keysight_read_header` (protocol.c:251-261): NUL-terminate
the header in the buffer and `parse_int` the digit field `buf + 2`. -/
def hdrParse (devc : DevContext) (t : Transport) : HdrOut :=
  let b1 := devc.headerBuf.getD 1 0
  let hl := 2 + (b1 - 48)
  let field := (devc.headerBuf.drop 2).take (hl - 2)
  match parse_int field with
  | none => ⟨SR_ERR, devc, t⟩
  | some v => ⟨v, devc, t⟩

/-- Continuation of `keysight_read_header` after the second read attempt
(protocol.c:239-249): propagate a read error, record the delivered bytes, and
either report "not yet complete" or parse the now-complete header. -/
def hdrPhase2Cont (devc : DevContext) (hl : Nat)
    (r : Option (List Nat) × Transport) : HdrOut :=
  match r with
  | (none, t1) => ⟨SR_ERR, devc, t1⟩
  | (some bs, t1) =>
    let d1 := { devc with headerBuf := devc.headerBuf ++ bs }
    if d1.headerBuf.length < hl then ⟨0, d1, t1⟩ else hdrParse d1 t1

/-- Middle of `keysight_read_header` (protocol.c:230-249): validate the
marker and digit-count byte, then read the remaining header bytes. -/
def hdrPhase2 (devc : DevContext) (t : Transport) : HdrOut :=
  let b0 := devc.headerBuf.getD 0 0
  let b1 := devc.headerBuf.getD 1 0
  if b0 ≠ 35 ∨ isDigitB b1 = false ∨ b1 = 48 then ⟨SR_ERR, devc, t⟩
  else
    let hl := 2 + (b1 - 48)
    if devc.headerBuf.length < hl then
      hdrPhase2Cont devc hl (readData t (hl - devc.headerBuf.length))
    else hdrParse devc t

/-- Continuation of `keysight_read_header` after the first read attempt
(protocol.c:218-228): propagate a read error, record the delivered bytes, and
either report "not yet complete" or continue with the marker validation. -/
def hdrPhase1Cont (devc : DevContext) (r : Option (List Nat) × Transport) :
    HdrOut :=
  match r with
  | (none, t1) => ⟨SR_ERR, devc, t1⟩
  | (some bs, t1) =>
    let d1 := { devc with headerBuf := devc.headerBuf ++ bs }
    if d1.headerBuf.length < 2 then ⟨0, d1, t1⟩ else hdrPhase2 d1 t1

/-- Embedding of `keysight_read_header` (protocol.c:208-262).  First tries to
complete the 2-byte `#<digit>` prefix, then delegates to `hdrPhase2`. -/
def keysight_read_header (devc : DevContext) (t : Transport) : HdrOut :=
  if devc.headerBuf.length < 2 then
    hdrPhase1Cont devc (readData t (2 - devc.headerBuf.length))
  else hdrPhase2 devc t

/-- Iterate `keysight_read_header` across readiness events (as the reactor
re-invokes `keysight_receive` while it returns 0), with fuel. -/
def runHeader : Nat → DevContext → Transport → HdrOut
  | 0, d, t => ⟨0, d, t⟩
  | Nat.succ n, d, t =>
    let o := keysight_read_header d t
    if o.res = 0 then runHeader n o.devc o.t else o

/-- Truncation toward zero of a rational, as the C cast `(int)vdivlog`
truncates a float. -/
def ratTrunc (q : ℚ) : Int :=
  if q.num < 0 then -((q.num.natAbs / q.den : Nat) : Int)
  else ((q.num.natAbs / q.den : Nat) : Int)

/-- The significant-digits computation of protocol.c:356-357:
`int digits = -(int)vdivlog + (vdivlog < 0.0);` applied to
`vdivlog = log10f(vdiv)`. -/
def sigDigits (vdivlog : ℚ) : Int :=
  -(ratTrunc vdivlog) + (if vdivlog < 0 then 1 else 0)

/-- Modelled from the spec (claim C9 wording, spec section 4.3): the negated
truncation toward negative infinity (floor) of `log10(verticalIncrement)`,
plus 1 when `log10(verticalIncrement)` is negative.  Stated only to be
compared with the source's `sigDigits`. -/
def sigDigitsClaim (vdivlog : ℚ) : Int :=
  -(⌊vdivlog⌋) + (if vdivlog < 0 then 1 else 0)

/-- Oracle environment for the external SCPI command/query collaborators used
by one `keysight_receive` invocation: the success of each
`keysight_config_set`/`sr_scpi_send`/`sr_scpi_read_begin` call and the result
of each typed query, in source order. -/
structure Env where
  wavSour : Bool
  wavForm : Bool
  wavPoinMode : Bool
  wavUns : Bool
  yinc : Option ℚ
  yor : Option ℚ
  yref : Option Int
  poin : Option Int
  sendData : Bool
  readBegin : Bool
  sendDigitize : Bool

/-- Embedding of `keysight_capture_start` (protocol.c:111-134).  The
`limit_frames` field is read only for a debug message; on send failure the C
code returns `TRUE` (1) with the state unchanged, otherwise it enters
`STATE_DIGITIZING`. -/
def keysight_capture_start (devc : DevContext) (env : Env) : Int × DevContext :=
  if ¬ env.sendDigitize then (1, devc)
  else (SR_OK, { devc with state := MachState.digitizing })

/-- First-frame one-time setup inside `keysight_channel_start`
(protocol.c:161-188): transfer format, point mode, unsigned encoding, and for
analog channels the three calibration queries (each stored as soon as it
succeeds, so a later failure keeps earlier stores). -/
def chanFirstFrame (devc : DevContext) (ch : Channel) (env : Env) :
    Except DevContext DevContext :=
  if ¬ env.wavForm then Except.error devc
  else if ¬ env.wavPoinMode then Except.error devc
  else if ¬ env.wavUns then Except.error devc
  else if ch.type = ChanType.analog then
    match env.yinc with
    | none => Except.error devc
    | some vinc =>
      let d1 := { devc with vert_inc := Function.update devc.vert_inc ch.index vinc }
      match env.yor with
      | none => Except.error d1
      | some vor =>
        let d2 := { d1 with vert_origin := Function.update d1.vert_origin ch.index vor }
        match env.yref with
        | none => Except.error d2
        | some vr =>
          Except.ok { d2 with vert_reference := Function.update d2.vert_reference ch.index vr }
  else Except.ok devc

/-- Embedding of `keysight_channel_start` (protocol.c:137-205): select the
channel data source, do first-frame setup, query the channel byte total,
reset the per-channel/per-block progress counters, and request the data
transfer.  Returns the C `int` result (`SR_OK`, `SR_ERR`, or `TRUE` = 1 for
the two send/read-begin failures) with the updated context. -/
def keysight_channel_start (devc : DevContext) (env : Env) : Int × DevContext :=
  let ch := devc.enabled_channels.getD devc.cursor ⟨0, ChanType.analog⟩
  let first_frame := devc.num_frames = 0
  if ¬ env.wavSour then (SR_ERR, devc)
  else
    match (if first_frame then chanFirstFrame devc ch env else Except.ok devc) with
    | Except.error d => (SR_ERR, d)
    | Except.ok d =>
      match env.poin with
      | none => (SR_ERR, d)
      | some total =>
        let d1 := { d with num_channel_bytes_total := total,
                           num_channel_bytes := 0,
                           headerBuf := ([] : List Nat),
                           num_block_bytes := 0 }
        if ¬ env.sendData then (1, d1)
        else if ¬ env.readBegin then (1, d1)
        else (SR_OK, { d1 with state := MachState.readingData })

/-- The analog sample conversion of protocol.c:355:
`devc->data[i] = ((int)devc->buffer[i] - vref - origin) * vdiv;`. -/
def convertSample (vref : Int) (origin vdiv : ℚ) (b : Nat) : ℚ :=
  ((b : ℚ) - (vref : ℚ) - origin) * vdiv

/-- Datafeed packets emitted to the session sink. -/
inductive Packet
  | frameBegin
  | frameEnd
  | analogPkt (ch : Channel) (digits : Int) (values : List ℚ)
  | logicPkt (unitsize : Nat) (bytes : List Nat)
deriving DecidableEq, Repr

/-- Result of one `keysight_receive` invocation: the boolean C return value,
the (possibly absent) updated device context, the advanced transport, the
packets sent to the session in order, and whether
`sr_dev_acquisition_stop` was called. -/
structure RecvOut where
  ret : Bool
  devc : Option DevContext
  t : Transport
  packets : List Packet
  stopped : Bool

/-- The payload byte count requested by one read pass of `keysight_receive`
(protocol.c:330-332): `min(num_block_bytes - num_block_read, ACQ_BUFFER_SIZE)`. -/
def payloadReq (devc : DevContext) : Nat :=
  min (devc.num_block_bytes - devc.num_block_read) ACQ_BUFFER_SIZE

/-- Bytes actually delivered for that request by a transport whose next plan
entry caps delivery at `c` and whose pending data is `bs`. -/
def deliveredLen (devc : DevContext) (c : Nat) (bs : List Nat) : Nat :=
  min (min (payloadReq devc) c) bs.length

/-- The block-payload part of `keysight_receive` (protocol.c:330-425): read a
bounded chunk, convert/emit it, handle block completion and the
channel/frame sequencing. -/
def recvBody (devc : DevContext) (t : Transport) (env : Env) (lg : ℚ → ℚ)
    (ch : Channel) : RecvOut :=
  match readData t (payloadReq devc) with
  | (none, t1) =>
    ⟨true, some { devc with state := MachState.idle }, t1, [Packet.frameEnd], true⟩
  | (some chunk, t1) =>
    let len := chunk.length
    let d1 := { devc with num_block_read := devc.num_block_read + len }
    let pkt : Packet :=
      if ch.type = ChanType.analog then
        let vref := devc.vert_reference ch.index
        let vdiv := devc.vert_inc ch.index
        let origin := devc.vert_origin ch.index
        Packet.analogPkt ch (sigDigits (lg vdiv)) (chunk.map (convertSample vref origin vdiv))
      else Packet.logicPkt 1 chunk
    let s2 : DevContext × Transport :=
      if d1.num_block_read = d1.num_block_bytes then
        ({ d1 with headerBuf := ([] : List Nat), num_block_bytes := 0,
                   num_block_read := 0 },
         (readData t1 1).2)
      else (d1, t1)
    let d3 := { s2.1 with num_channel_bytes := s2.1.num_channel_bytes + len }
    if d3.num_channel_bytes < intToU64 d3.num_channel_bytes_total then
      ⟨true, some d3, s2.2, [pkt], false⟩
    else if d3.cursor + 1 < d3.enabled_channels.length then
      let d4 := { d3 with cursor := d3.cursor + 1 }
      ⟨true, some (keysight_channel_start d4 env).2, s2.2, [pkt], false⟩
    else
      let d4 := { d3 with state := MachState.idle, num_frames := d3.num_frames + 1,
                          cursor := 0 }
      ⟨true, some (keysight_capture_start d4 env).2, s2.2,
        [pkt, Packet.frameEnd, Packet.frameBegin], false⟩

/-- The `STATE_READING_DATA` branch of `keysight_receive`
(protocol.c:310-425): decode the block header if none is in progress, then
read the payload. -/
def recvReading (devc : DevContext) (t : Transport) (env : Env) (lg : ℚ → ℚ) :
    RecvOut :=
  let ch := devc.enabled_channels.getD devc.cursor ⟨0, ChanType.analog⟩
  if devc.num_block_bytes = 0 then
    let ho := keysight_read_header devc t
    if ho.res = 0 then ⟨true, some ho.devc, ho.t, [], false⟩
    else if ho.res = SR_ERR then
      ⟨true, some { ho.devc with state := MachState.idle }, ho.t,
        [Packet.frameEnd], true⟩
    else
      recvBody { ho.devc with num_block_bytes := intToU64 ho.res,
                              num_block_read := 0 } ho.t env lg ch
  else recvBody devc t env lg ch

/-- Embedding of `keysight_receive` (protocol.c:264-426).  `sdiPresent`
models the `cb_data` null check and `devcOpt` the `sdi->priv` null check;
`lg` models `log10f`. -/
def keysight_receive (revents : Int) (sdiPresent : Bool)
    (devcOpt : Option DevContext) (t : Transport) (env : Env) (lg : ℚ → ℚ) :
    RecvOut :=
  if ¬ sdiPresent then ⟨true, devcOpt, t, [], false⟩
  else
    match devcOpt with
    | none => ⟨true, none, t, [], false⟩
    | some devc =>
      if ¬ (revents = G_IO_IN ∨ revents = 0) then ⟨true, some devc, t, [], false⟩
      else
        match devc.state with
        | MachState.idle => ⟨true, some devc, t, [], false⟩
        | MachState.digitizing =>
          ⟨true, some (keysight_channel_start devc env).2, t, [], false⟩
        | MachState.readingData => recvReading devc t env lg

/-- Replace the significant-digits metadata of an analog packet by 0 (used to
state that the digits computation affects no other observable output). -/
def stripPkt : Packet → Packet
  | Packet.analogPkt ch _ vs => Packet.analogPkt ch 0 vs
  | p => p

/-- Forget the significant-digits metadata of a `keysight_receive` result. -/
def stripDigits (o : RecvOut) : RecvOut :=
  { o with packets := o.packets.map stripPkt }

/-! Concrete sample contexts used by witnesses and counterexamples. -/

/-- A device context in `STATE_READING_DATA` with one enabled digital pod
channel and room left in the current channel. -/
def sampleDev : DevContext where
  limit_frames := 0
  enabled_channels := [⟨0, ChanType.digital⟩]
  cursor := 0
  num_frames := 0
  num_channel_bytes_total := 1000
  num_channel_bytes := 0
  headerBuf := []
  num_block_bytes := 0
  num_block_read := 0
  state := MachState.readingData
  vert_reference := fun _ => 0
  vert_origin := fun _ => 0
  vert_offset := fun _ => 0
  vert_inc := fun _ => 0

/-- `sampleDev`, idle. -/
def sampleIdle : DevContext := { sampleDev with state := MachState.idle }

/-- An oracle environment in which every SCPI interaction succeeds. -/
def envAllOk : Env where
  wavSour := true
  wavForm := true
  wavPoinMode := true
  wavUns := true
  yinc := some 1
  yor := some 0
  yref := some 0
  poin := some 4
  sendData := true
  readBegin := true
  sendDigitize := true

/-- A transport with nothing pending and an empty request log. -/
def emptyT : Transport := ⟨[], [], []⟩

/-! Helper lemmas. -/

/-- An idle context makes `keysight_receive` a no-op for every readiness
value, transport and environment. -/
theorem receive_idle_inert (d : DevContext) (hd : d.state = MachState.idle)
    (rev : Int) (t : Transport) (env : Env) (lg : ℚ → ℚ) :
    keysight_receive rev true (some d) t env lg = ⟨true, some d, t, [], false⟩ := by
  simp [keysight_receive, hd]

/-- The significant-digits value is the only part of `recvBody`'s output that
depends on the `log10f` model. -/
theorem recvBody_lg_irrelevant (devc : DevContext) (t : Transport) (env : Env)
    (ch : Channel) (lg lg₂ : ℚ → ℚ) :
    stripDigits (recvBody devc t env lg ch) =
      stripDigits (recvBody devc t env lg₂ ch) := by
  unfold recvBody
  rcases h : readData t (payloadReq devc) with ⟨mb, t1⟩
  simp only [h]
  cases mb with
  | none => rfl
  | some chunk =>
    by_cases hty : ch.type = ChanType.analog <;>
      simp only [hty, if_true, if_false, reduceIte] <;>
      split_ifs <;>
      simp [stripDigits, stripPkt]

/-- The significant-digits value is the only part of `recvReading`'s output
that depends on the `log10f` model. -/
theorem recvReading_lg_irrelevant (devc : DevContext) (t : Transport) (env : Env)
    (lg lg₂ : ℚ → ℚ) :
    stripDigits (recvReading devc t env lg) =
      stripDigits (recvReading devc t env lg₂) := by
  simp only [recvReading]
  split_ifs <;> first
    | rfl
    | exact recvBody_lg_irrelevant ..

/-- The significant-digits value is the only part of `keysight_receive`'s
output that depends on the `log10f` model. -/
theorem receive_lg_irrelevant (rev : Int) (sdiP : Bool) (dOpt : Option DevContext)
    (t : Transport) (env : Env) (lg lg₂ : ℚ → ℚ) :
    stripDigits (keysight_receive rev sdiP dOpt t env lg) =
      stripDigits (keysight_receive rev sdiP dOpt t env lg₂) := by
  cases dOpt with
  | none => cases sdiP <;> rfl
  | some d =>
    cases sdiP
    · rfl
    · by_cases hrev : rev = G_IO_IN ∨ rev = 0
      · cases hs : d.state
        · simp [keysight_receive, hrev, hs]
        · simp [keysight_receive, hrev, hs]
        · simp only [keysight_receive, hrev, hs, not_true_eq_false, Bool.not_true,
            if_false, reduceIte]
          exact recvReading_lg_irrelevant ..
      · simp [keysight_receive, hrev]

/-- Truncation toward zero agrees with `Int.floor` on nonnegative rationals. -/
theorem ratTrunc_nonneg (q : ℚ) (h : 0 ≤ q.num) : ratTrunc q = ⌊q⌋ := by
  rw [ratTrunc, if_neg (by omega), Rat.floor_def, Int.ofNat_ediv,
    Int.natAbs_of_nonneg h]

/-- Truncation toward zero agrees with `Int.ceil` on rationals with negative
numerator. -/
theorem ratTrunc_neg (q : ℚ) (h : q.num < 0) : ratTrunc q = ⌈q⌉ := by
  have h2 : (0 : Int) ≤ (-q).num := by rw [Rat.neg_num]; omega
  have h3 : ratTrunc (-q) = ⌊-q⌋ := ratTrunc_nonneg (-q) h2
  rw [ratTrunc, if_pos h]
  rw [ratTrunc, if_neg (by omega), Rat.neg_num, Rat.neg_den] at h3
  rw [Int.floor_neg] at h3
  have h4 : q.num.natAbs = (-q.num).natAbs := by omega
  rw [h4]
  omega

/-! Claim theorems. -/

/-- C10: whenever the readiness value is neither `G_IO_IN` nor the 0 fallback
tick, or the callback data / device context is null, or the state is
`STATE_IDLE`, `keysight_receive` returns TRUE, requests nothing from the
transport, emits no packets, does not stop acquisition, and leaves the device
context unchanged. -/
theorem C10_guard_paths_inert (rev : Int) (sdiP : Bool) (dOpt : Option DevContext)
    (t : Transport) (env : Env) (lg : ℚ → ℚ)
    (h : ¬(rev = G_IO_IN ∨ rev = 0) ∨ sdiP = false ∨ dOpt = none ∨
      ∃ d, dOpt = some d ∧ d.state = MachState.idle) :
    keysight_receive rev sdiP dOpt t env lg = ⟨true, dOpt, t, [], false⟩ := by
  rcases h with h | h | h | ⟨d, rfl, hd⟩
  · cases sdiP
    · simp [keysight_receive]
    · cases dOpt with
      | none => simp [keysight_receive]
      | some d => simp [keysight_receive, h]
  · subst h
    simp [keysight_receive]
  · subst h
    cases sdiP <;> simp [keysight_receive]
  · cases sdiP
    · simp [keysight_receive]
    · exact receive_idle_inert d hd rev t env lg

/-- Witness for C10: the four guard cases at concrete inputs. -/
theorem C10_witness :
    keysight_receive 5 true (some sampleDev) emptyT envAllOk (fun _ => 0) =
      ⟨true, some sampleDev, emptyT, [], false⟩ ∧
    keysight_receive G_IO_IN false (some sampleDev) emptyT envAllOk (fun _ => 0) =
      ⟨true, some sampleDev, emptyT, [], false⟩ ∧
    keysight_receive G_IO_IN true none emptyT envAllOk (fun _ => 0) =
      ⟨true, none, emptyT, [], false⟩ ∧
    keysight_receive G_IO_IN true (some sampleIdle) emptyT envAllOk (fun _ => 0) =
      ⟨true, some sampleIdle, emptyT, [], false⟩ :=
  ⟨C10_guard_paths_inert 5 true (some sampleDev) emptyT envAllOk (fun _ => 0)
      (Or.inl (by decide)),
   C10_guard_paths_inert G_IO_IN false (some sampleDev) emptyT envAllOk (fun _ => 0)
      (Or.inr (Or.inl rfl)),
   C10_guard_paths_inert G_IO_IN true none emptyT envAllOk (fun _ => 0)
      (Or.inr (Or.inr (Or.inl rfl))),
   C10_guard_paths_inert G_IO_IN true (some sampleIdle) emptyT envAllOk (fun _ => 0)
      (Or.inr (Or.inr (Or.inr ⟨sampleIdle, rfl, rfl⟩)))⟩

/-- A context one completed block away from finishing its second frame of a
two-frame limit: `limit_frames = 2`, `num_frames = 1`, 4 bytes left in the
only enabled channel's final block. -/
def devcFrameLimit : DevContext :=
  { sampleDev with limit_frames := 2, num_frames := 1, num_channel_bytes_total := 4,
                   num_block_bytes := 4, num_block_read := 0 }

/-- Running `keysight_receive` on `devcFrameLimit` with the last 4 payload
bytes (and the trailing delimiter) available. -/
def frameLimitRun : RecvOut :=
  keysight_receive G_IO_IN true (some devcFrameLimit) ⟨[], [7, 8, 9, 10, 10], []⟩
    envAllOk (fun _ => 0)

/-- C1: the frame limit is NOT enforced by the code.  With `limit_frames = 2`,
completing the second frame emits `FrameEnd` and then unconditionally starts a
third frame: a third `FrameBegin` is emitted and the machine is left in
`STATE_DIGITIZING` with `num_frames = 2`, instead of staying idle as the spec
requires (`keysight_receive` never consults `limit_frames`, and
`keysight_capture_start` reads it only for a debug message). -/
theorem C1_frame_limit_not_enforced :
    devcFrameLimit.limit_frames = 2 ∧ devcFrameLimit.num_frames = 1 ∧
    frameLimitRun.packets =
      [Packet.logicPkt 1 [7, 8, 9, 10], Packet.frameEnd, Packet.frameBegin] ∧
    frameLimitRun.devc.map DevContext.state = some MachState.digitizing ∧
    frameLimitRun.devc.map DevContext.num_frames = some 2 := by
  decide

/-- A context mid-channel on a single enabled analog channel, two block bytes
remaining, unit calibration. -/
def devcAnalogOne : DevContext :=
  { sampleDev with enabled_channels := [⟨0, ChanType.analog⟩],
                   num_block_bytes := 2, vert_inc := fun _ => 1 }

/-- Counterexample to C9 as stated: with `log10f(vdiv)` returning `-1/2`, the
emitted analog packet carries `digits = 1` (the C cast truncates toward
zero), while the claim's truncation toward negative infinity would give 2. -/
theorem C9_counterexample :
    (keysight_receive G_IO_IN true (some devcAnalogOne) ⟨[], [], []⟩ envAllOk
        (fun _ => (-1 : ℚ) / 2)).packets =
      [Packet.analogPkt ⟨0, ChanType.analog⟩ (sigDigits ((-1 : ℚ) / 2)) []] ∧
    sigDigits ((-1 : ℚ) / 2) = 1 ∧ sigDigitsClaim ((-1 : ℚ) / 2) = 2 := by
  refine ⟨rfl, ?_, ?_⟩
  · have hq : ((-1 : ℚ) / 2) < 0 := by norm_num
    have hn : ((-1 : ℚ) / 2).num < 0 := by
      have h2 : ¬ 0 ≤ ((-1 : ℚ) / 2) := not_le.2 hq
      rw [← Rat.num_nonneg] at h2
      omega
    rw [sigDigits, if_pos hq, ratTrunc_neg _ hn]
    norm_num
  · have hq : ((-1 : ℚ) / 2) < 0 := by norm_num
    rw [sigDigitsClaim, if_pos hq]
    norm_num

/-- C9 amended: the significant-digits metadata equals the negated truncation
toward ZERO of `log10f(verticalIncrement)` (so `-⌊x⌋` for `x ≥ 0` but
`1 - ⌈x⌉` for `x < 0`), plus 1 when that logarithm is negative; and the
digits value never affects anything else `keysight_receive` produces (its
output with the digits metadata erased is independent of the `log10f`
model). -/
theorem C9_sig_digits (x : ℚ) :
    sigDigits x = (if x < 0 then 1 - ⌈x⌉ else -⌊x⌋) ∧
    ∀ (rev : Int) (sdiP : Bool) (dOpt : Option DevContext) (t : Transport)
      (env : Env) (lg lg₂ : ℚ → ℚ),
      stripDigits (keysight_receive rev sdiP dOpt t env lg) =
        stripDigits (keysight_receive rev sdiP dOpt t env lg₂) := by
  constructor
  · by_cases h : x < 0
    · have hn : x.num < 0 := by
        have h2 : ¬ 0 ≤ x := not_le.2 h
        rw [← Rat.num_nonneg] at h2
        omega
      rw [sigDigits, if_pos h, if_pos h, ratTrunc_neg x hn]
      omega
    · have hn : 0 ≤ x.num := Rat.num_nonneg.2 (not_lt.1 h)
      rw [sigDigits, if_neg h, if_neg h, ratTrunc_nonneg x hn]
      omega
  · intro rev sdiP dOpt t env lg lg₂
    exact receive_lg_irrelevant ..

/-- A context awaiting the channel-start handshake (`STATE_DIGITIZING`) on the
first frame with one enabled analog channel. -/
def devcDigitizing : DevContext :=
  { sampleDev with state := MachState.digitizing,
                   enabled_channels := [⟨0, ChanType.analog⟩] }

/-- An environment whose channel-source selection (the first setup step of
`keysight_channel_start`) fails. -/
def envWavSourFail : Env := { envAllOk with wavSour := false }

/-- Counterexample to C7 as stated: when a `keysight_channel_start` setup step
fails (here the `:WAV:SOUR` selection), the caller does NOT abort the capture:
no frame boundary is emitted, acquisition is not stopped, and the state stays
`STATE_DIGITIZING` instead of becoming idle. -/
theorem C7_counterexample :
    keysight_receive G_IO_IN true (some devcDigitizing) emptyT envWavSourFail
        (fun _ => 0) =
      ⟨true, some devcDigitizing, emptyT, [], false⟩ ∧
    devcDigitizing.state = MachState.digitizing := by
  constructor
  · rfl
  · rfl

/-- In `STATE_READING_DATA`, a well-formed readiness event dispatches to
`recvReading`. -/
theorem receive_reading_unfold (devc : DevContext) (t : Transport) (env : Env)
    (lg : ℚ → ℚ) (hst : devc.state = MachState.readingData) :
    keysight_receive G_IO_IN true (some devc) t env lg = recvReading devc t env lg := by
  simp [keysight_receive, hst]

/-- With a block already in progress, `recvReading` skips the header decoder
and reads payload. -/
theorem recvReading_body (devc : DevContext) (t : Transport) (env : Env)
    (lg : ℚ → ℚ) (hbb : devc.num_block_bytes ≠ 0) :
    recvReading devc t env lg =
      recvBody devc t env lg
        (devc.enabled_channels.getD devc.cursor ⟨0, ChanType.analog⟩) := by
  simp [recvReading, hbb]

/-- C6: a transport read error while payload bytes of the current block remain
unread emits exactly one `FrameEnd`, stops acquisition, forces the state to
idle, and every subsequent invocation on the resulting context does nothing. -/
theorem C6_read_error_ends_frame (devc : DevContext) (ps : List (Option Nat))
    (bs l : List Nat) (env : Env) (lg : ℚ → ℚ)
    (hst : devc.state = MachState.readingData)
    (hbb : devc.num_block_bytes ≠ 0)
    (hrem : devc.num_block_read < devc.num_block_bytes) :
    (keysight_receive G_IO_IN true (some devc) ⟨none :: ps, bs, l⟩ env lg).packets =
      [Packet.frameEnd] ∧
    (keysight_receive G_IO_IN true (some devc) ⟨none :: ps, bs, l⟩ env lg).stopped = true ∧
    (keysight_receive G_IO_IN true (some devc) ⟨none :: ps, bs, l⟩ env lg).devc =
      some { devc with state := MachState.idle } ∧
    ∀ (rev : Int) (t₂ : Transport) (env₂ : Env) (lg₂ : ℚ → ℚ),
      keysight_receive rev true (some { devc with state := MachState.idle }) t₂ env₂ lg₂ =
        ⟨true, some { devc with state := MachState.idle }, t₂, [], false⟩ := by
  have hkey : keysight_receive G_IO_IN true (some devc) ⟨none :: ps, bs, l⟩ env lg =
      ⟨true, some { devc with state := MachState.idle },
        ⟨ps, bs, l ++ [payloadReq devc]⟩, [Packet.frameEnd], true⟩ := by
    rw [receive_reading_unfold devc _ env lg hst, recvReading_body devc _ env lg hbb]
    simp [recvBody, readData, payloadReq]
  refine ⟨?_, ?_, ?_, ?_⟩
  · rw [hkey]
  · rw [hkey]
  · rw [hkey]
  · intro rev t₂ env₂ lg₂
    exact receive_idle_inert _ rfl rev t₂ env₂ lg₂

/-- One payload pass of `recvBody` when the transport delivers the whole
pending byte list `bs` (at most one chunk's worth) and the channel is not yet
complete: the chunk is converted and emitted, the counters advance by
`bs.length`, and the block completes exactly when the running count reaches
`num_block_bytes` (consuming the trailing delimiter). -/
theorem recvBody_full_chunk (devc : DevContext) (env : Env) (lg : ℚ → ℚ)
    (ch : Channel) (bs l : List Nat)
    (hfit : bs.length ≤ devc.num_block_bytes - devc.num_block_read)
    (hbuf : bs.length ≤ ACQ_BUFFER_SIZE)
    (hmid : devc.num_channel_bytes + bs.length < intToU64 devc.num_channel_bytes_total) :
    recvBody devc ⟨[], bs, l⟩ env lg ch =
      ⟨true,
       some (if devc.num_block_read + bs.length = devc.num_block_bytes then
               { devc with headerBuf := [], num_block_bytes := 0, num_block_read := 0,
                           num_channel_bytes := devc.num_channel_bytes + bs.length }
             else
               { devc with num_block_read := devc.num_block_read + bs.length,
                           num_channel_bytes := devc.num_channel_bytes + bs.length }),
       (if devc.num_block_read + bs.length = devc.num_block_bytes then
          (⟨[], [], l ++ [payloadReq devc, 1]⟩ : Transport)
        else ⟨[], [], l ++ [payloadReq devc]⟩),
       [if ch.type = ChanType.analog then
          Packet.analogPkt ch (sigDigits (lg (devc.vert_inc ch.index)))
            (bs.map (convertSample (devc.vert_reference ch.index)
              (devc.vert_origin ch.index) (devc.vert_inc ch.index)))
        else Packet.logicPkt 1 bs],
       false⟩ := by
  have hδ : min (payloadReq devc) bs.length = bs.length :=
    min_eq_right (le_min hfit hbuf)
  by_cases hcomp : devc.num_block_read + bs.length = devc.num_block_bytes <;>
    simp only [recvBody, readData, hδ, List.take_length, List.drop_length] <;>
    simp [hcomp, hmid, List.append_assoc]

/-- C4: for an analog channel chunk, every output element `i` equals
`(rawByte[i] - verticalReference - verticalOrigin) * verticalIncrement` with
that channel's cached calibration constants, the emitted samples preserve the
input order (the packet carries exactly the pointwise image of the chunk),
and the conversion mutates no calibration state. -/
theorem C4_analog_conversion (devc : DevContext) (ch : Channel) (bs l : List Nat)
    (env : Env) (lg : ℚ → ℚ)
    (hst : devc.state = MachState.readingData)
    (hch : devc.enabled_channels.getD devc.cursor ⟨0, ChanType.analog⟩ = ch)
    (hty : ch.type = ChanType.analog)
    (hbb : devc.num_block_bytes ≠ 0)
    (hfit : bs.length ≤ devc.num_block_bytes - devc.num_block_read)
    (hbuf : bs.length ≤ ACQ_BUFFER_SIZE)
    (hmid : devc.num_channel_bytes + bs.length < intToU64 devc.num_channel_bytes_total) :
    (keysight_receive G_IO_IN true (some devc) ⟨[], bs, l⟩ env lg).packets =
      [Packet.analogPkt ch (sigDigits (lg (devc.vert_inc ch.index)))
        (bs.map (convertSample (devc.vert_reference ch.index)
          (devc.vert_origin ch.index) (devc.vert_inc ch.index)))] ∧
    (∀ i : Nat,
      (bs.map (convertSample (devc.vert_reference ch.index)
        (devc.vert_origin ch.index) (devc.vert_inc ch.index)))[i]? =
        (bs[i]?).map (convertSample (devc.vert_reference ch.index)
          (devc.vert_origin ch.index) (devc.vert_inc ch.index))) ∧
    (keysight_receive G_IO_IN true (some devc) ⟨[], bs, l⟩ env lg).devc.map
        DevContext.vert_inc = some devc.vert_inc ∧
    (keysight_receive G_IO_IN true (some devc) ⟨[], bs, l⟩ env lg).devc.map
        DevContext.vert_origin = some devc.vert_origin ∧
    (keysight_receive G_IO_IN true (some devc) ⟨[], bs, l⟩ env lg).devc.map
        DevContext.vert_reference = some devc.vert_reference ∧
    (keysight_receive G_IO_IN true (some devc) ⟨[], bs, l⟩ env lg).devc.map
        DevContext.vert_offset = some devc.vert_offset := by
  have hkey : keysight_receive G_IO_IN true (some devc) ⟨[], bs, l⟩ env lg =
      recvBody devc ⟨[], bs, l⟩ env lg ch := by
    rw [receive_reading_unfold _ _ _ _ hst, recvReading_body _ _ _ _ hbb, hch]
  rw [hkey, recvBody_full_chunk devc env lg ch bs l hfit hbuf hmid]
  refine ⟨by simp [hty], fun i => List.getElem?_map .., ?_, ?_, ?_, ?_⟩ <;>
    (split_ifs <;> rfl)

/-- A reading-data context for the digital pod channel of `sampleDev` with an
8-byte block in progress. -/
def devcDigitalBlock : DevContext := { sampleDev with num_block_bytes := 8 }

/-- Witness for C4 at a concrete analog context and chunk. -/
theorem C4_witness :
    devcAnalogOne.state = MachState.readingData ∧
    ((keysight_receive G_IO_IN true (some devcAnalogOne) ⟨[], [100, 200], []⟩ envAllOk
        (fun _ => 0)).packets =
      [Packet.analogPkt ⟨0, ChanType.analog⟩ (sigDigits ((fun _ => (0 : ℚ)) (devcAnalogOne.vert_inc 0)))
        ([100, 200].map (convertSample (devcAnalogOne.vert_reference 0)
          (devcAnalogOne.vert_origin 0) (devcAnalogOne.vert_inc 0)))] ∧
    (∀ i : Nat,
      (([100, 200] : List Nat).map (convertSample (devcAnalogOne.vert_reference 0)
        (devcAnalogOne.vert_origin 0) (devcAnalogOne.vert_inc 0)))[i]? =
        ((([100, 200] : List Nat))[i]?).map (convertSample (devcAnalogOne.vert_reference 0)
          (devcAnalogOne.vert_origin 0) (devcAnalogOne.vert_inc 0))) ∧
    (keysight_receive G_IO_IN true (some devcAnalogOne) ⟨[], [100, 200], []⟩ envAllOk
        (fun _ => 0)).devc.map DevContext.vert_inc = some devcAnalogOne.vert_inc ∧
    (keysight_receive G_IO_IN true (some devcAnalogOne) ⟨[], [100, 200], []⟩ envAllOk
        (fun _ => 0)).devc.map DevContext.vert_origin = some devcAnalogOne.vert_origin ∧
    (keysight_receive G_IO_IN true (some devcAnalogOne) ⟨[], [100, 200], []⟩ envAllOk
        (fun _ => 0)).devc.map DevContext.vert_reference = some devcAnalogOne.vert_reference ∧
    (keysight_receive G_IO_IN true (some devcAnalogOne) ⟨[], [100, 200], []⟩ envAllOk
        (fun _ => 0)).devc.map DevContext.vert_offset = some devcAnalogOne.vert_offset) :=
  ⟨rfl, C4_analog_conversion devcAnalogOne ⟨0, ChanType.analog⟩ [100, 200] [] envAllOk
    (fun _ => 0) rfl (by decide) rfl (by decide) (by decide) (by decide) (by decide)⟩

/-- C8: a digital (pod) channel chunk is emitted byte-identical, in order,
with a unit size of exactly 1 byte per sample. -/
theorem C8_digital_passthrough (devc : DevContext) (ch : Channel) (bs l : List Nat)
    (env : Env) (lg : ℚ → ℚ)
    (hst : devc.state = MachState.readingData)
    (hch : devc.enabled_channels.getD devc.cursor ⟨0, ChanType.analog⟩ = ch)
    (hty : ch.type = ChanType.digital)
    (hbb : devc.num_block_bytes ≠ 0)
    (hfit : bs.length ≤ devc.num_block_bytes - devc.num_block_read)
    (hbuf : bs.length ≤ ACQ_BUFFER_SIZE)
    (hmid : devc.num_channel_bytes + bs.length < intToU64 devc.num_channel_bytes_total) :
    (keysight_receive G_IO_IN true (some devc) ⟨[], bs, l⟩ env lg).packets =
      [Packet.logicPkt 1 bs] := by
  have hkey : keysight_receive G_IO_IN true (some devc) ⟨[], bs, l⟩ env lg =
      recvBody devc ⟨[], bs, l⟩ env lg ch := by
    rw [receive_reading_unfold _ _ _ _ hst, recvReading_body _ _ _ _ hbb, hch]
  rw [hkey, recvBody_full_chunk devc env lg ch bs l hfit hbuf hmid]
  have hne : ch.type ≠ ChanType.analog := by
    rw [hty]
    exact fun h => ChanType.noConfusion h
  simp [hne]

/-- Witness for C8 at a concrete digital context and chunk. -/
theorem C8_witness :
    devcDigitalBlock.num_block_bytes ≠ 0 ∧
    (keysight_receive G_IO_IN true (some devcDigitalBlock) ⟨[], [0, 255, 170], []⟩
        envAllOk (fun _ => 0)).packets = [Packet.logicPkt 1 [0, 255, 170]] :=
  ⟨by decide, C8_digital_passthrough devcDigitalBlock ⟨0, ChanType.digital⟩ [0, 255, 170]
    [] envAllOk (fun _ => 0) rfl (by decide) rfl (by decide) (by decide) (by decide)
    (by decide)⟩

/-- Every `sr_scpi_read_data` call logs exactly the requested byte count,
whatever the plan says. -/
theorem readData_log (t : Transport) (req : Nat) :
    ((readData t req).2).log = t.log ++ [req] := by
  rcases t with ⟨plan, data, log⟩
  cases plan with
  | nil => rfl
  | cons h ps => cases h <;> rfl

/-- One payload pass of `recvBody` against a transport whose next read is
capped at `c` bytes: the pass requests `payloadReq devc` bytes, receives
`deliveredLen devc c bs` of them, and completes the block exactly when the
running count reaches `num_block_bytes`. -/
theorem recvBody_capped (devc : DevContext) (env : Env) (lg : ℚ → ℚ)
    (ch : Channel) (c : Nat) (ps : List (Option Nat)) (bs l : List Nat)
    (hmid : devc.num_channel_bytes + deliveredLen devc c bs <
      intToU64 devc.num_channel_bytes_total) :
    recvBody devc ⟨some c :: ps, bs, l⟩ env lg ch =
      ⟨true,
       some (if devc.num_block_read + deliveredLen devc c bs = devc.num_block_bytes then
               { devc with headerBuf := [], num_block_bytes := 0, num_block_read := 0,
                           num_channel_bytes :=
                             devc.num_channel_bytes + deliveredLen devc c bs }
             else
               { devc with num_block_read :=
                             devc.num_block_read + deliveredLen devc c bs,
                           num_channel_bytes :=
                             devc.num_channel_bytes + deliveredLen devc c bs }),
       (if devc.num_block_read + deliveredLen devc c bs = devc.num_block_bytes then
          (readData ⟨ps, bs.drop (deliveredLen devc c bs), l ++ [payloadReq devc]⟩ 1).2
        else ⟨ps, bs.drop (deliveredLen devc c bs), l ++ [payloadReq devc]⟩),
       [if ch.type = ChanType.analog then
          Packet.analogPkt ch (sigDigits (lg (devc.vert_inc ch.index)))
            ((bs.take (deliveredLen devc c bs)).map
              (convertSample (devc.vert_reference ch.index)
                (devc.vert_origin ch.index) (devc.vert_inc ch.index)))
        else Packet.logicPkt 1 (bs.take (deliveredLen devc c bs))],
       false⟩ := by
  have hfold : min (min (payloadReq devc) c) bs.length = deliveredLen devc c bs := rfl
  have hlen : (bs.take (deliveredLen devc c bs)).length = deliveredLen devc c bs := by
    rw [List.length_take]
    exact min_eq_left (min_le_right _ _)
  by_cases hcomp : devc.num_block_read + deliveredLen devc c bs = devc.num_block_bytes <;>
    simp only [recvBody, readData, hfold, hlen] <;>
    simp [hcomp, hmid]

/-- C5: with a block of `num_block_bytes` declared, every read pass requests
exactly `min(num_block_bytes - num_block_read, 64*1024)` payload bytes,
accumulates exactly what the transport delivered, and signals block completion
(resetting the block counters and consuming the trailing delimiter byte)
precisely when the accumulated count equals the declared length — for every
delivery cap `c` the transport imposes. -/
theorem C5_chunked_reader (devc : DevContext) (c : Nat) (ps : List (Option Nat))
    (bs l : List Nat) (env : Env) (lg : ℚ → ℚ)
    (hst : devc.state = MachState.readingData)
    (hbb : devc.num_block_bytes ≠ 0)
    (hrem : devc.num_block_read < devc.num_block_bytes)
    (hmid : devc.num_channel_bytes + deliveredLen devc c bs <
      intToU64 devc.num_channel_bytes_total) :
    ((keysight_receive G_IO_IN true (some devc) ⟨some c :: ps, bs, l⟩ env lg).t.log.take
        (l.length + 1) = l ++ [payloadReq devc]) ∧
    (devc.num_block_read + deliveredLen devc c bs = devc.num_block_bytes →
      (keysight_receive G_IO_IN true (some devc) ⟨some c :: ps, bs, l⟩ env lg).t.log =
        l ++ [payloadReq devc, 1] ∧
      (keysight_receive G_IO_IN true (some devc) ⟨some c :: ps, bs, l⟩ env lg).devc.map
        DevContext.num_block_bytes = some 0 ∧
      (keysight_receive G_IO_IN true (some devc) ⟨some c :: ps, bs, l⟩ env lg).devc.map
        DevContext.num_block_read = some 0) ∧
    (devc.num_block_read + deliveredLen devc c bs ≠ devc.num_block_bytes →
      (keysight_receive G_IO_IN true (some devc) ⟨some c :: ps, bs, l⟩ env lg).t.log =
        l ++ [payloadReq devc] ∧
      (keysight_receive G_IO_IN true (some devc) ⟨some c :: ps, bs, l⟩ env lg).devc.map
        DevContext.num_block_bytes = some devc.num_block_bytes ∧
      (keysight_receive G_IO_IN true (some devc) ⟨some c :: ps, bs, l⟩ env lg).devc.map
        DevContext.num_block_read =
          some (devc.num_block_read + deliveredLen devc c bs)) := by
  have hkey : keysight_receive G_IO_IN true (some devc) ⟨some c :: ps, bs, l⟩ env lg =
      recvBody devc ⟨some c :: ps, bs, l⟩ env lg
        (devc.enabled_channels.getD devc.cursor ⟨0, ChanType.analog⟩) := by
    rw [receive_reading_unfold _ _ _ _ hst, recvReading_body _ _ _ _ hbb]
  rw [hkey, recvBody_capped devc env lg _ c ps bs l hmid]
  have hlenpr : (l ++ [payloadReq devc]).length = l.length + 1 := by simp
  by_cases hcomp : devc.num_block_read + deliveredLen devc c bs = devc.num_block_bytes
  · have hlog : ((readData
        ⟨ps, bs.drop (deliveredLen devc c bs), l ++ [payloadReq devc]⟩ 1).2).log =
        (l ++ [payloadReq devc]) ++ [1] := readData_log _ 1
    refine ⟨?_, fun _ => ⟨?_, ?_, ?_⟩, fun hn => (hn hcomp).elim⟩
    · simp only [if_pos hcomp, hlog]
      rw [← hlenpr, List.take_left]
    · simp only [if_pos hcomp, hlog]
      simp
    · simp [hcomp]
    · simp [hcomp]
  · refine ⟨?_, fun hy => (hcomp hy).elim, fun _ => ⟨?_, ?_, ?_⟩⟩
    · simp only [if_neg hcomp]
      rw [← hlenpr, List.take_length]
    · simp [hcomp]
    · simp [hcomp]
    · simp [hcomp]

/-- Witness for C5: a capped 3-byte delivery against an 8-byte block. -/
theorem C5_witness :
    devcDigitalBlock.num_block_read < devcDigitalBlock.num_block_bytes ∧
    ((keysight_receive G_IO_IN true (some devcDigitalBlock)
        ⟨some 3 :: [], [1, 2, 3, 4, 5], []⟩ envAllOk (fun _ => 0)).t.log.take (0 + 1) =
      [] ++ [payloadReq devcDigitalBlock]) ∧
    (devcDigitalBlock.num_block_read + deliveredLen devcDigitalBlock 3 [1, 2, 3, 4, 5] =
        devcDigitalBlock.num_block_bytes →
      (keysight_receive G_IO_IN true (some devcDigitalBlock)
          ⟨some 3 :: [], [1, 2, 3, 4, 5], []⟩ envAllOk (fun _ => 0)).t.log =
        [] ++ [payloadReq devcDigitalBlock, 1] ∧
      (keysight_receive G_IO_IN true (some devcDigitalBlock)
          ⟨some 3 :: [], [1, 2, 3, 4, 5], []⟩ envAllOk (fun _ => 0)).devc.map
        DevContext.num_block_bytes = some 0 ∧
      (keysight_receive G_IO_IN true (some devcDigitalBlock)
          ⟨some 3 :: [], [1, 2, 3, 4, 5], []⟩ envAllOk (fun _ => 0)).devc.map
        DevContext.num_block_read = some 0) ∧
    (devcDigitalBlock.num_block_read + deliveredLen devcDigitalBlock 3 [1, 2, 3, 4, 5] ≠
        devcDigitalBlock.num_block_bytes →
      (keysight_receive G_IO_IN true (some devcDigitalBlock)
          ⟨some 3 :: [], [1, 2, 3, 4, 5], []⟩ envAllOk (fun _ => 0)).t.log =
        [] ++ [payloadReq devcDigitalBlock] ∧
      (keysight_receive G_IO_IN true (some devcDigitalBlock)
          ⟨some 3 :: [], [1, 2, 3, 4, 5], []⟩ envAllOk (fun _ => 0)).devc.map
        DevContext.num_block_bytes = some devcDigitalBlock.num_block_bytes ∧
      (keysight_receive G_IO_IN true (some devcDigitalBlock)
          ⟨some 3 :: [], [1, 2, 3, 4, 5], []⟩ envAllOk (fun _ => 0)).devc.map
        DevContext.num_block_read =
          some (devcDigitalBlock.num_block_read +
            deliveredLen devcDigitalBlock 3 [1, 2, 3, 4, 5])) :=
  ⟨by decide, C5_chunked_reader devcDigitalBlock 3 [] [1, 2, 3, 4, 5] [] envAllOk
    (fun _ => 0) rfl (by decide) (by decide) (by decide)⟩

/-- A context mid-way through a 1400-byte block (500 bytes read), matching
the spec's end-to-end scenario 3. -/
def devcMidBlock : DevContext :=
  { sampleDev with num_block_bytes := 1400, num_block_read := 500,
                   num_channel_bytes := 500 }

/-- Witness for C6 at the spec's scenario-3 numbers (error after 500 of 1400
bytes). -/
theorem C6_witness :
    devcMidBlock.num_block_read < devcMidBlock.num_block_bytes ∧
    ((keysight_receive G_IO_IN true (some devcMidBlock) ⟨none :: [], [], []⟩ envAllOk
        (fun _ => 0)).packets = [Packet.frameEnd] ∧
     (keysight_receive G_IO_IN true (some devcMidBlock) ⟨none :: [], [], []⟩ envAllOk
        (fun _ => 0)).stopped = true ∧
     (keysight_receive G_IO_IN true (some devcMidBlock) ⟨none :: [], [], []⟩ envAllOk
        (fun _ => 0)).devc = some { devcMidBlock with state := MachState.idle } ∧
     ∀ (rev : Int) (t₂ : Transport) (env₂ : Env) (lg₂ : ℚ → ℚ),
       keysight_receive rev true (some { devcMidBlock with state := MachState.idle })
           t₂ env₂ lg₂ =
         ⟨true, some { devcMidBlock with state := MachState.idle }, t₂, [], false⟩) :=
  ⟨by decide, C6_read_error_ends_frame devcMidBlock [] [] [] envAllOk (fun _ => 0)
    rfl (by decide) (by decide)⟩

/-- First-frame setup preserves the machine state on its error path. -/
theorem chanFirstFrame_state_error (devc : DevContext) (ch : Channel) (env : Env)
    (d : DevContext) (h : chanFirstFrame devc ch env = Except.error d) :
    d.state = devc.state := by
  unfold chanFirstFrame at h
  rcases hyi : env.yinc with _ | vi <;> rcases hyo : env.yor with _ | vo <;>
    rcases hyr : env.yref with _ | vr <;>
    (try simp only [hyi, hyo, hyr] at h) <;>
    split_ifs at h <;>
    first
      | exact Except.noConfusion h
      | (injection h with h2; subst h2; rfl)

/-- First-frame setup preserves the machine state on its success path. -/
theorem chanFirstFrame_state_ok (devc : DevContext) (ch : Channel) (env : Env)
    (d : DevContext) (h : chanFirstFrame devc ch env = Except.ok d) :
    d.state = devc.state := by
  unfold chanFirstFrame at h
  rcases hyi : env.yinc with _ | vi <;> rcases hyo : env.yor with _ | vo <;>
    rcases hyr : env.yref with _ | vr <;>
    (try simp only [hyi, hyo, hyr] at h) <;>
    split_ifs at h <;>
    first
      | exact Except.noConfusion h
      | (injection h with h2; subst h2; rfl)

/-- First-frame setup succeeds exactly when the three configuration commands
succeed and, for an analog channel, all three calibration queries succeed. -/
theorem chanFirstFrame_ok_iff (devc : DevContext) (ch : Channel) (env : Env) :
    (∃ d, chanFirstFrame devc ch env = Except.ok d) ↔
      (env.wavForm = true ∧ env.wavPoinMode = true ∧ env.wavUns = true ∧
        (ch.type = ChanType.analog →
          env.yinc ≠ none ∧ env.yor ≠ none ∧ env.yref ≠ none)) := by
  unfold chanFirstFrame
  by_cases h1 : env.wavForm <;> by_cases h2 : env.wavPoinMode <;>
    by_cases h3 : env.wavUns <;> by_cases h4 : ch.type = ChanType.analog <;>
    rcases hyi : env.yinc with _ | vi <;> rcases hyo : env.yor with _ | vo <;>
    rcases hyr : env.yref with _ | vr <;>
    simp [h1, h2, h3, h4, hyi, hyo, hyr]

/-- In `STATE_DIGITIZING`, a well-formed readiness event just runs
`keysight_channel_start` and returns TRUE — whatever the result. -/
theorem receive_digitizing_unfold (devc : DevContext) (t : Transport) (env : Env)
    (lg : ℚ → ℚ) (hst : devc.state = MachState.digitizing) :
    keysight_receive G_IO_IN true (some devc) t env lg =
      ⟨true, some (keysight_channel_start devc env).2, t, [], false⟩ := by
  simp [keysight_receive, hst]

/-- C7 amended: every failed setup step makes `keysight_channel_start` return
non-`SR_OK` (the success cases are exactly characterized), but the caller does
NOT abort the capture: on failure the state machine keeps its previous state,
and the `STATE_DIGITIZING` caller returns TRUE with no packets, no acquisition
stop and no frame boundary, leaving the machine in `STATE_DIGITIZING` (so the
channel start is retried on the next readiness event) rather than idle. -/
theorem C7_channel_start_failure (devc : DevContext) (env : Env) :
    ((keysight_channel_start devc env).1 = SR_OK ↔
      (env.wavSour = true ∧ env.poin ≠ none ∧ env.sendData = true ∧
        env.readBegin = true ∧
        (devc.num_frames = 0 →
          env.wavForm = true ∧ env.wavPoinMode = true ∧ env.wavUns = true ∧
          ((devc.enabled_channels.getD devc.cursor ⟨0, ChanType.analog⟩).type =
              ChanType.analog →
            env.yinc ≠ none ∧ env.yor ≠ none ∧ env.yref ≠ none)))) ∧
    ((keysight_channel_start devc env).1 ≠ SR_OK →
      (keysight_channel_start devc env).2.state = devc.state ∧
      (devc.state = MachState.digitizing →
        ∀ (t : Transport) (lg : ℚ → ℚ),
          keysight_receive G_IO_IN true (some devc) t env lg =
            ⟨true, some (keysight_channel_start devc env).2, t, [], false⟩ ∧
          (keysight_channel_start devc env).2.state = MachState.digitizing)) := by
  have hmain : ((keysight_channel_start devc env).1 = SR_OK ↔
      (env.wavSour = true ∧ env.poin ≠ none ∧ env.sendData = true ∧
        env.readBegin = true ∧
        (devc.num_frames = 0 →
          env.wavForm = true ∧ env.wavPoinMode = true ∧ env.wavUns = true ∧
          ((devc.enabled_channels.getD devc.cursor ⟨0, ChanType.analog⟩).type =
              ChanType.analog →
            env.yinc ≠ none ∧ env.yor ≠ none ∧ env.yref ≠ none)))) ∧
      ((keysight_channel_start devc env).1 ≠ SR_OK →
        (keysight_channel_start devc env).2.state = devc.state) := by
    unfold keysight_channel_start
    set ch := devc.enabled_channels.getD devc.cursor ⟨0, ChanType.analog⟩ with hchdef
    by_cases hws : env.wavSour
    · by_cases hff : devc.num_frames = 0
      · rcases hE : chanFirstFrame devc ch env with d | d
        · have hstate := chanFirstFrame_state_error devc ch env d hE
          have hinner : ¬(env.wavForm = true ∧ env.wavPoinMode = true ∧
              env.wavUns = true ∧
              (ch.type = ChanType.analog →
                env.yinc ≠ none ∧ env.yor ≠ none ∧ env.yref ≠ none)) := by
            intro hc
            obtain ⟨d2, hd2⟩ := (chanFirstFrame_ok_iff devc ch env).2 hc
            rw [hE] at hd2
            exact Except.noConfusion hd2
          simp [hws, hff, hE, SR_OK, SR_ERR, hinner, hstate]
        · have hstate := chanFirstFrame_state_ok devc ch env d hE
          have hinner : env.wavForm = true ∧ env.wavPoinMode = true ∧
              env.wavUns = true ∧
              (ch.type = ChanType.analog →
                env.yinc ≠ none ∧ env.yor ≠ none ∧ env.yref ≠ none) :=
            (chanFirstFrame_ok_iff devc ch env).1 ⟨d, hE⟩
          rcases hpo : env.poin with _ | total
          · simp [hws, hff, hE, hpo, SR_OK, SR_ERR, hstate]
          · by_cases hsd : env.sendData <;> by_cases hrb : env.readBegin <;>
              simp [hws, hff, hE, hpo, hsd, hrb, SR_OK, hinner, hstate] <;>
              exact hinner.2.2.2
      · rcases hpo : env.poin with _ | total
        · simp [hws, hff, hpo, SR_OK, SR_ERR]
        · by_cases hsd : env.sendData <;> by_cases hrb : env.readBegin <;>
            simp [hws, hff, hpo, hsd, hrb, SR_OK]
    · simp [hws, SR_OK, SR_ERR]
  refine ⟨hmain.1, fun hfail => ⟨hmain.2 hfail, fun hdig t lg => ⟨?_, ?_⟩⟩⟩
  · exact receive_digitizing_unfold devc t env lg hdig
  · rw [hmain.2 hfail, hdig]

/-- Witness for C7 amended, at a concrete digitizing context whose
channel-source selection fails. -/
theorem C7_witness :
    (keysight_channel_start devcDigitizing envWavSourFail).1 ≠ SR_OK ∧
    (keysight_channel_start devcDigitizing envWavSourFail).2.state =
      devcDigitizing.state ∧
    keysight_receive G_IO_IN true (some devcDigitizing) emptyT envWavSourFail
        (fun _ => 0) =
      ⟨true, some (keysight_channel_start devcDigitizing envWavSourFail).2, emptyT,
        [], false⟩ ∧
    (keysight_channel_start devcDigitizing envWavSourFail).2.state =
      MachState.digitizing :=
  have h := (C7_channel_start_failure devcDigitizing envWavSourFail).2 (by decide)
  ⟨by decide, h.1, (h.2 rfl emptyT (fun _ => 0)).1, (h.2 rfl emptyT (fun _ => 0)).2⟩

/-- A reading-data context whose buffer already holds the complete header
`#2+5` — digit count 2, length field `+5` containing a sign character. -/
def devcHdrPlus : DevContext := { sampleDev with headerBuf := [35, 50, 43, 53] }

/-- Counterexample to C3 as stated: the length field `+5` contains a
non-digit (the sign byte `'+'` = 43), yet the header decoder returns the
numeric length 5 instead of a framing error, because C `strtol` accepts
leading whitespace and one sign character. -/
theorem C3_counterexample :
    devcHdrPlus.headerBuf = [35, 50, 43, 53] ∧
    (keysight_read_header devcHdrPlus emptyT).res = 5 := by
  decide

/-- C3 amended: a header whose first byte is not `'#'`, or whose digit-count
byte is not an ASCII digit or is `'0'`, is always a framing error; a length
field whose C string (up to the first NUL) contains a byte that is not an
ASCII digit, not C whitespace and not a `'+'`/`'-'` sign never parses; a
digit string whose value exceeds `INT_MAX` never parses; and a complete
header whose field fails `parse_int` makes the decoder return `SR_ERR`.
(Fields made of optional whitespace, an optional sign and digits DO parse,
contrary to the original claim — see the counterexample.) -/
theorem C3_framing_errors :
    (∀ (d : DevContext) (t : Transport) (b0 b1 : Nat) (tl : List Nat),
        d.headerBuf = b0 :: b1 :: tl →
        (b0 ≠ 35 ∨ isDigitB b1 = false ∨ b1 = 48) →
        keysight_read_header d t = ⟨SR_ERR, d, t⟩) ∧
    (∀ (field : List Nat) (j : Nat),
        j ∈ field.takeWhile (fun c => c != 0) →
        isDigitB j = false → isCSpace j = false → j ≠ 43 → j ≠ 45 →
        parse_int field = none) ∧
    (∀ ds : List Nat, (∀ c ∈ ds, isDigitB c = true) →
        (digitsVal ds : Int) > INT_MAX → parse_int ds = none) ∧
    (∀ (d : DevContext) (t : Transport) (b1 : Nat) (field : List Nat),
        d.headerBuf = 35 :: b1 :: field →
        49 ≤ b1 → b1 ≤ 57 →
        field.length = b1 - 48 →
        parse_int field = none →
        keysight_read_header d t = ⟨SR_ERR, d, t⟩) := by
  refine ⟨?_, ?_, ?_, ?_⟩
  · intro d t b0 b1 tl hbuf hbad
    have h2 : ¬ d.headerBuf.length < 2 := by
      rw [hbuf]
      simp
    rcases hbad with h | h | h <;>
      simp [keysight_read_header, hdrPhase2, hbuf, h2, h]
  · intro field j hj hjd hjs hj43 hj45
    simp only [parse_int]
    set s := field.takeWhile (fun c => c != 0) with hs
    set ws := s.dropWhile isCSpace with hws
    set body := (if ws.head? = some 43 ∨ ws.head? = some 45 then ws.tail else ws)
      with hbody
    set ds := body.takeWhile isDigitB with hds
    by_cases h1 : ds.isEmpty
    · simp [h1]
    · by_cases h2 : (body.drop ds.length).isEmpty
      · exfalso
        obtain ⟨r, hr⟩ := List.takeWhile_prefix (l := body) isDigitB
        rw [← hds] at hr
        have hrdrop : body.drop ds.length = r := by
          rw [← hr, List.drop_left]
        have hrnil : r = [] := List.isEmpty_iff.1 (hrdrop ▸ h2)
        have hbd : body = ds := by rw [← hr, hrnil, List.append_nil]
        have hdigbody : ∀ x ∈ body, isDigitB x = true := by
          intro x hx
          rw [hbd] at hx
          exact List.mem_takeWhile_imp (hds ▸ hx)
        have hsdecomp : s.takeWhile isCSpace ++ ws = s :=
          List.takeWhile_append_dropWhile ..
        rw [← hsdecomp] at hj
        rcases List.mem_append.1 hj with hjx | hjx
        · have := List.mem_takeWhile_imp hjx
          rw [hjs] at this
          exact Bool.noConfusion this
        · by_cases hsign : ws.head? = some 43 ∨ ws.head? = some 45
          · rcases hw : ws with _ | ⟨a, tl2⟩
            · rw [hw] at hjx
              exact List.not_mem_nil j hjx
            · have hbody2 : body = tl2 := by
                rw [hbody, if_pos hsign, hw]
                rfl
              rw [hw] at hjx
              rcases List.mem_cons.1 hjx with rfl | hjx2
              · rw [hw] at hsign
                simp only [List.head?_cons, Option.some.injEq] at hsign
                rcases hsign with rfl | rfl
                · exact hj43 rfl
                · exact hj45 rfl
              · have := hdigbody j (hbody2 ▸ hjx2)
                rw [hjd] at this
                exact Bool.noConfusion this
          · have hbody2 : body = ws := by rw [hbody, if_neg hsign]
            have := hdigbody j (hbody2 ▸ hjx)
            rw [hjd] at this
            exact Bool.noConfusion this
      · simp [h1, h2]
  · intro ds hdig hover
    have hne : ds ≠ [] := by
      rintro rfl
      rw [show digitsVal [] = 0 from rfl] at hover
      rw [INT_MAX] at hover
      omega
    rcases hd : ds with _ | ⟨c, cs⟩
    · exact absurd hd hne
    rw [← hd]
    have hcds : c ∈ ds := by rw [hd]; exact List.mem_cons_self ..
    have hcdig : isDigitB c = true := hdig c hcds
    have hc48 : 48 ≤ c ∧ c ≤ 57 := by
      simp only [isDigitB, Bool.and_eq_true, decide_eq_true_eq] at hcdig
      exact hcdig
    have hs : ds.takeWhile (fun x => x != 0) = ds := by
      rw [List.takeWhile_eq_self_iff]
      intro x hx
      have := hdig x hx
      simp only [isDigitB, Bool.and_eq_true, decide_eq_true_eq] at this
      simp only [bne_iff_ne, ne_eq]
      omega
    have hdw : ds.dropWhile isCSpace = ds := by
      rw [hd, List.dropWhile_cons, if_neg]
      rw [show (isCSpace c = true) = (c = 32 ∨ 9 ≤ c ∧ c ≤ 13) from ?_]
      · omega
      · simp only [isCSpace, Bool.or_eq_true, Bool.and_eq_true, decide_eq_true_eq,
          beq_iff_eq, eq_iff_iff]
    have hhead : ds.head? = some c := by rw [hd, List.head?_cons]
    have hnosign : ¬ (ds.head? = some 43 ∨ ds.head? = some 45) := by
      rw [hhead]
      rintro (h | h) <;> (injection h with h; omega)
    have hneg45 : ¬ ds.head? = some 45 := fun h => hnosign (Or.inr h)
    have htd : ds.takeWhile isDigitB = ds := by
      rw [List.takeWhile_eq_self_iff]
      exact hdig
    simp only [parse_int, hs, hdw, if_neg hnosign, if_neg hneg45, htd,
      List.drop_length, List.isEmpty_nil, one_mul]
    rw [if_neg (by rw [List.isEmpty_iff]; exact hne)]
    simp only [not_true_eq_false, if_false]
    by_cases hL : (digitsVal ds : Int) > LONG_MAX ∨ (digitsVal ds : Int) < LONG_MIN
    · simp [hL]
    · rw [if_neg hL, if_pos (Or.inl hover)]
  · intro d t b1 field hbuf hlo hhi hlen hpf
    have hl2 : ¬ d.headerBuf.length < 2 := by
      rw [hbuf]
      simp
    have hdig : isDigitB b1 = true := by
      simp only [isDigitB, Bool.and_eq_true, decide_eq_true_eq]
      omega
    have hgood : ¬ ((35 : Nat) ≠ 35 ∨ isDigitB b1 = false ∨ b1 = 48) := by
      rw [hdig]
      rintro (h | h | h)
      · exact h rfl
      · exact Bool.noConfusion h
      · omega
    have hfull : ¬ d.headerBuf.length < 2 + (b1 - 48) := by
      rw [hbuf]
      simp only [List.length_cons, hlen]
      omega
    have hfield : (d.headerBuf.drop 2).take (2 + (b1 - 48) - 2) = field := by
      rw [hbuf]
      simp only [List.drop_succ_cons, List.drop_zero]
      rw [show 2 + (b1 - 48) - 2 = b1 - 48 from by omega, ← hlen, List.take_length]
    unfold keysight_read_header hdrPhase2 hdrParse
    rw [if_neg hl2]
    simp only [hbuf, List.getD_cons_zero, List.getD_cons_succ]
    rw [if_neg hgood, if_neg (hbuf ▸ hfull)]
    rw [hbuf] at hfield
    simp only [hfield, hpf]

/-- A reading-data context whose buffer holds the bad header `X1` (first byte
is not `'#'`). -/
def devcHdrBad : DevContext := { sampleDev with headerBuf := [88, 49] }

/-- A reading-data context whose buffer holds the complete header `#1x`
(non-digit length field). -/
def devcHdrNonDigit : DevContext := { sampleDev with headerBuf := [35, 49, 120] }

/-- Witness for C3 amended: each framing-error family at a concrete input. -/
theorem C3_witness :
    keysight_read_header devcHdrBad emptyT = ⟨SR_ERR, devcHdrBad, emptyT⟩ ∧
    parse_int [53, 120] = none ∧
    parse_int (List.replicate 10 57) = none ∧
    keysight_read_header devcHdrNonDigit emptyT = ⟨SR_ERR, devcHdrNonDigit, emptyT⟩ :=
  ⟨C3_framing_errors.1 devcHdrBad emptyT 88 49 [] rfl (Or.inl (by decide)),
   C3_framing_errors.2.1 [53, 120] 120 (by decide) (by decide) (by decide) (by decide)
     (by decide),
   C3_framing_errors.2.2.1 (List.replicate 10 57) (by decide) (by decide),
   C3_framing_errors.2.2.2 devcHdrNonDigit emptyT 49 [120] rfl (by decide) (by decide)
     (by decide) (by decide)⟩

/-- Bound for `strtol`'s digit accumulation with an arbitrary accumulator. -/
theorem digitsVal_aux_lt (ds : List Nat) (hdig : ∀ c ∈ ds, isDigitB c = true) :
    ∀ a : Nat, ds.foldl (fun x c => x * 10 + (c - 48)) a < (a + 1) * 10 ^ ds.length := by
  induction ds with
  | nil => intro a; simp
  | cons c cs ih =>
    intro a
    have hc := hdig c (List.mem_cons_self ..)
    have hc9 : c - 48 ≤ 9 := by
      simp only [isDigitB, Bool.and_eq_true, decide_eq_true_eq] at hc
      omega
    have ih2 := ih (fun x hx => hdig x (List.mem_cons_of_mem _ hx)) (a * 10 + (c - 48))
    simp only [List.foldl_cons, List.length_cons]
    calc List.foldl (fun x c => x * 10 + (c - 48)) (a * 10 + (c - 48)) cs
        < (a * 10 + (c - 48) + 1) * 10 ^ cs.length := ih2
      _ ≤ ((a + 1) * 10) * 10 ^ cs.length := Nat.mul_le_mul_right _ (by omega)
      _ = (a + 1) * 10 ^ (cs.length + 1) := by ring

/-- A `D`-digit field encodes a value below `10 ^ D`. -/
theorem digitsVal_lt (ds : List Nat) (hdig : ∀ c ∈ ds, isDigitB c = true) :
    digitsVal ds < 10 ^ ds.length := by
  have h := digitsVal_aux_lt ds hdig 0
  simpa [digitsVal] using h

/-- `parse_int` on a nonempty all-digit field of at most 9 digits returns
exactly its decimal value. -/
theorem parse_int_digits (field : List Nat) (hne : field ≠ [])
    (hdig : ∀ c ∈ field, isDigitB c = true) (hlen9 : field.length ≤ 9) :
    parse_int field = some ((digitsVal field : Int)) := by
  rcases hd : field with _ | ⟨c, cs⟩
  · exact absurd hd hne
  rw [← hd]
  have hcds : c ∈ field := by rw [hd]; exact List.mem_cons_self ..
  have hcdig := hdig c hcds
  have hc48 : 48 ≤ c ∧ c ≤ 57 := by
    simp only [isDigitB, Bool.and_eq_true, decide_eq_true_eq] at hcdig
    exact hcdig
  have hs : field.takeWhile (fun x => x != 0) = field := by
    rw [List.takeWhile_eq_self_iff]
    intro x hx
    have := hdig x hx
    simp only [isDigitB, Bool.and_eq_true, decide_eq_true_eq] at this
    simp only [bne_iff_ne, ne_eq]
    omega
  have hdw : field.dropWhile isCSpace = field := by
    rw [hd, List.dropWhile_cons, if_neg]
    rw [show (isCSpace c = true) = (c = 32 ∨ 9 ≤ c ∧ c ≤ 13) from ?_]
    · omega
    · simp only [isCSpace, Bool.or_eq_true, Bool.and_eq_true, decide_eq_true_eq,
        beq_iff_eq, eq_iff_iff]
  have hhead : field.head? = some c := by rw [hd, List.head?_cons]
  have hnosign : ¬ (field.head? = some 43 ∨ field.head? = some 45) := by
    rw [hhead]
    rintro (h | h) <;> (injection h with h; omega)
  have hneg45 : ¬ field.head? = some 45 := fun h => hnosign (Or.inr h)
  have htd : field.takeWhile isDigitB = field := by
    rw [List.takeWhile_eq_self_iff]
    exact hdig
  have hbound : digitsVal field < 10 ^ 9 :=
    lt_of_lt_of_le (digitsVal_lt field hdig) (Nat.pow_le_pow_right (by omega) hlen9)
  have hboundI : (digitsVal field : Int) < 1000000000 := by
    have h10 : (10 : Nat) ^ 9 = 1000000000 := by norm_num
    rw [h10] at hbound
    exact_mod_cast hbound
  have hnn : (0 : Int) ≤ (digitsVal field : Int) := Int.ofNat_nonneg _
  simp only [parse_int, hs, hdw, if_neg hnosign, if_neg hneg45, htd,
    List.drop_length, List.isEmpty_nil, one_mul]
  rw [if_neg (by rw [List.isEmpty_iff]; exact hne)]
  simp only [not_true_eq_false, if_false]
  rw [if_neg (by rw [LONG_MAX, LONG_MIN]; omega),
    if_neg (by rw [INT_MAX, INT_MIN]; omega)]

/-- `hdrPhase2` on a buffer already holding a complete valid all-digit header
parses it in place: no reads, no state change, result the decimal value. -/
theorem hdrPhase2_digits (d : DevContext) (t : Transport) (b1 : Nat)
    (field : List Nat) (hbuf : d.headerBuf = 35 :: b1 :: field)
    (hlo : 49 ≤ b1) (hhi : b1 ≤ 57) (hlen : field.length = b1 - 48)
    (hdig : ∀ c ∈ field, isDigitB c = true) :
    hdrPhase2 d t = ⟨(digitsVal field : Int), d, t⟩ := by
  have hdigb : isDigitB b1 = true := by
    simp only [isDigitB, Bool.and_eq_true, decide_eq_true_eq]
    omega
  have hgood : ¬((35 : Nat) ≠ 35 ∨ isDigitB b1 = false ∨ b1 = 48) := by
    rw [hdigb]
    rintro (h | h | h)
    · exact h rfl
    · exact Bool.noConfusion h
    · omega
  have hfull : ¬ (35 :: b1 :: field).length < 2 + (b1 - 48) := by
    simp only [List.length_cons, hlen]
    omega
  have hfield : ((35 :: b1 :: field).drop 2).take (2 + (b1 - 48) - 2) = field := by
    simp only [List.drop_succ_cons, List.drop_zero]
    rw [show 2 + (b1 - 48) - 2 = b1 - 48 from by omega, ← hlen, List.take_length]
  have hne : field ≠ [] := by
    intro hnil
    rw [hnil] at hlen
    simp at hlen
    omega
  unfold hdrPhase2 hdrParse
  simp only [hbuf, List.getD_cons_zero, List.getD_cons_succ]
  rw [if_neg hgood, if_neg hfull, hfield,
    parse_int_digits field hne hdig (by omega)]

/-- `keysight_read_header` on a buffer already holding a complete valid
all-digit header: returns the declared length with no reads. -/
theorem readHeader_digits_full (d : DevContext) (t : Transport) (b1 : Nat)
    (field : List Nat) (hbuf : d.headerBuf = 35 :: b1 :: field)
    (hlo : 49 ≤ b1) (hhi : b1 ≤ 57) (hlen : field.length = b1 - 48)
    (hdig : ∀ c ∈ field, isDigitB c = true) :
    keysight_read_header d t = ⟨(digitsVal field : Int), d, t⟩ := by
  unfold keysight_read_header
  rw [if_neg (by rw [hbuf]; simp)]
  exact hdrPhase2_digits d t b1 field hbuf hlo hhi hlen hdig

/-- Per-read-call delivery size in the header-invariant setting: everything
requested when the plan is exhausted, otherwise capped by the plan head. -/
def hdrDelta (caps : List Nat) (req : Nat) : Nat :=
  match caps with
  | [] => req
  | c :: _ => min req c

/-- The delivery never exceeds the request. -/
theorem hdrDelta_le (caps : List Nat) (req : Nat) : hdrDelta caps req ≤ req := by
  cases caps <;> simp [hdrDelta]

/-- Reading `tgt - k` bytes while `k` bytes of the header `H` are consumed and
the rest (plus trailing bytes) is pending delivers a prefix of the remaining
header and advances the stream accordingly. -/
theorem readData_inv (H rest log : List Nat) (k tgt : Nat) (caps : List Nat)
    (hk : k ≤ tgt) (htgt : tgt ≤ H.length) :
    readData ⟨caps.map some, H.drop k ++ rest, log⟩ (tgt - k) =
      (some ((H.drop k).take (hdrDelta caps (tgt - k))),
       ⟨caps.tail.map some,
        H.drop (k + hdrDelta caps (tgt - k)) ++ rest,
        log ++ [tgt - k]⟩) := by
  have hdl : (H.drop k).length = H.length - k := List.length_drop ..
  have hlen : (H.drop k ++ rest).length = (H.length - k) + rest.length := by
    simp [List.length_append, hdl]
  cases caps with
  | nil =>
    have h1 : min (tgt - k) (H.drop k ++ rest).length = tgt - k := by
      apply min_eq_left
      rw [hlen]
      omega
    have h2 : (H.drop k ++ rest).take (tgt - k) = (H.drop k).take (tgt - k) :=
      List.take_append_of_le_length (by rw [hdl]; omega)
    have h3 : (H.drop k ++ rest).drop (tgt - k) = H.drop (k + (tgt - k)) ++ rest := by
      rw [List.drop_append_of_le_length (by rw [hdl]; omega), List.drop_drop]
    simp only [List.map_nil, readData, List.tail_nil, hdrDelta, h1, h2, h3]
  | cons c caps2 =>
    have hminle : min (tgt - k) c ≤ (H.drop k).length := by
      rw [hdl]
      exact le_trans (min_le_left _ _) (by omega)
    have h1 : min (min (tgt - k) c) (H.drop k ++ rest).length = min (tgt - k) c := by
      apply min_eq_left
      rw [hlen]
      exact le_trans (min_le_left _ _) (by omega)
    have h2 : (H.drop k ++ rest).take (min (tgt - k) c) =
        (H.drop k).take (min (tgt - k) c) :=
      List.take_append_of_le_length hminle
    have h3 : (H.drop k ++ rest).drop (min (tgt - k) c) =
        H.drop (k + min (tgt - k) c) ++ rest := by
      rw [List.drop_append_of_le_length hminle, List.drop_drop]
    simp only [List.map_cons, readData, List.tail_cons, hdrDelta, h1, h2, h3]

/-- `hdrParse` on a buffer holding a complete valid all-digit header. -/
theorem hdrParse_digits (d : DevContext) (t : Transport) (b1 : Nat)
    (field : List Nat) (hbuf : d.headerBuf = 35 :: b1 :: field)
    (hlo : 49 ≤ b1) (hhi : b1 ≤ 57) (hlen : field.length = b1 - 48)
    (hdig : ∀ c ∈ field, isDigitB c = true) :
    hdrParse d t = ⟨(digitsVal field : Int), d, t⟩ := by
  have hfield : ((35 :: b1 :: field).drop 2).take (2 + (b1 - 48) - 2) = field := by
    simp only [List.drop_succ_cons, List.drop_zero]
    rw [show 2 + (b1 - 48) - 2 = b1 - 48 from by omega, ← hlen, List.take_length]
  have hne : field ≠ [] := by
    intro hnil
    rw [hnil] at hlen
    simp at hlen
    omega
  unfold hdrParse
  simp only [hbuf, List.getD_cons_zero, List.getD_cons_succ]
  rw [hfield, parse_int_digits field hne hdig (by omega)]

/-- Invariant of the incremental header decode: `k` header bytes are buffered,
the remaining header bytes (then `rest`) are pending on the transport, and the
delivery plan consists of the caps `caps` (no errors). -/
def HdrInv (H rest : List Nat) (k : Nat) (caps : List Nat) (d : DevContext)
    (t : Transport) : Prop :=
  d.headerBuf = H.take k ∧ k ≤ H.length ∧ t.data = H.drop k ++ rest ∧
    t.plan = caps.map some

/-- One `hdrPhase2` pass from the invariant with the 2-byte prefix already
buffered: either the declared length is returned, or "incomplete" is returned
with the invariant re-established and the plan strictly shorter. -/
theorem hdrPhase2_step (b1 : Nat) (field rest : List Nat)
    (hlo : 49 ≤ b1) (hhi : b1 ≤ 57) (hlen : field.length = b1 - 48)
    (hdig : ∀ c ∈ field, isDigitB c = true)
    (k : Nat) (caps : List Nat) (d : DevContext) (t : Transport)
    (h2 : 2 ≤ k) (hinv : HdrInv (35 :: b1 :: field) rest k caps d t) :
    (hdrPhase2 d t).res = (digitsVal field : Int) ∨
    ((hdrPhase2 d t).res = 0 ∧ ∃ k2 caps2, caps2.length < caps.length ∧
      HdrInv (35 :: b1 :: field) rest k2 caps2 (hdrPhase2 d t).devc
        (hdrPhase2 d t).t) := by
  obtain ⟨hbuf, hk, hdata, hplan⟩ := hinv
  have hH : (35 :: b1 :: field).length = 2 + (b1 - 48) := by
    simp only [List.length_cons, hlen]
    omega
  have hbuflen : d.headerBuf.length = k := by
    rw [hbuf, List.length_take]
    exact min_eq_left hk
  by_cases hfull : k = (35 :: b1 :: field).length
  · left
    have hbufH : d.headerBuf = 35 :: b1 :: field := by
      rw [hbuf, hfull, List.take_length]
    rw [hdrPhase2_digits d t b1 field hbufH hlo hhi hlen hdig]
  · have hklt : k < 2 + (b1 - 48) := by omega
    obtain ⟨kk, rfl⟩ : ∃ kk, k = kk + 2 := ⟨k - 2, by omega⟩
    have htake : (35 :: b1 :: field).take (kk + 2) = 35 :: b1 :: field.take kk := by
      rw [List.take_succ_cons, List.take_succ_cons]
    have hb0 : d.headerBuf.getD 0 0 = 35 := by rw [hbuf, htake]; rfl
    have hb1v : d.headerBuf.getD 1 0 = b1 := by rw [hbuf, htake]; rfl
    have hdigb : isDigitB b1 = true := by
      simp only [isDigitB, Bool.and_eq_true, decide_eq_true_eq]
      omega
    have hgood : ¬((35 : Nat) ≠ 35 ∨ isDigitB b1 = false ∨ b1 = 48) := by
      rw [hdigb]
      rintro (h | h | h)
      · exact h rfl
      · exact Bool.noConfusion h
      · omega
    obtain ⟨tp, td, tl⟩ := t
    replace hdata : td = (35 :: b1 :: field).drop (kk + 2) ++ rest := hdata
    replace hplan : tp = caps.map some := hplan
    subst hdata
    subst hplan
    have hrd := readData_inv (35 :: b1 :: field) rest tl (kk + 2) (2 + (b1 - 48))
      caps (by omega) (by omega)
    have hres : hdrPhase2 d
        ⟨caps.map some, (35 :: b1 :: field).drop (kk + 2) ++ rest, tl⟩ =
        hdrPhase2Cont d (2 + (b1 - 48))
          (some (((35 :: b1 :: field).drop (kk + 2)).take
              (hdrDelta caps (2 + (b1 - 48) - (kk + 2)))),
           ⟨caps.tail.map some,
            (35 :: b1 :: field).drop
              ((kk + 2) + hdrDelta caps (2 + (b1 - 48) - (kk + 2))) ++ rest,
            tl ++ [2 + (b1 - 48) - (kk + 2)]⟩) := by
      simp only [hdrPhase2, hb0, hb1v]
      rw [if_neg hgood, if_pos (by omega : d.headerBuf.length < 2 + (b1 - 48)),
        hbuflen, hrd]
    rw [hres]
    set δ := hdrDelta caps (2 + (b1 - 48) - (kk + 2)) with hδdef
    have hδle : δ ≤ 2 + (b1 - 48) - (kk + 2) := hdrDelta_le ..
    have hbslen : (((35 :: b1 :: field).drop (kk + 2)).take δ).length = δ := by
      rw [List.length_take, List.length_drop]
      exact min_eq_left (by omega)
    have hnewbuf : d.headerBuf ++ ((35 :: b1 :: field).drop (kk + 2)).take δ =
        (35 :: b1 :: field).take ((kk + 2) + δ) := by
      rw [hbuf, ← List.take_add]
    have hd1len : (d.headerBuf ++ ((35 :: b1 :: field).drop (kk + 2)).take δ).length =
        kk + 2 + δ := by
      rw [List.length_append, hbuflen, hbslen]
    by_cases hdone : kk + 2 + δ = 2 + (b1 - 48)
    · left
      have hfullbuf : d.headerBuf ++ ((35 :: b1 :: field).drop (kk + 2)).take δ =
          35 :: b1 :: field := by
        rw [hnewbuf, show kk + 2 + δ = (35 :: b1 :: field).length from by omega,
          List.take_length]
      simp only [hdrPhase2Cont]
      rw [if_neg (by rw [hd1len]; omega)]
      rw [hdrParse_digits _ _ b1 field hfullbuf hlo hhi hlen hdig]
    · right
      have hlt2 : kk + 2 + δ < 2 + (b1 - 48) := by omega
      simp only [hdrPhase2Cont]
      rw [if_pos (by rw [hd1len]; omega)]
      refine ⟨rfl, (kk + 2) + δ, caps.tail, ?_, hnewbuf, by omega, rfl, rfl⟩
      rcases caps with _ | ⟨c, caps2⟩
      · exfalso
        apply hdone
        have hδeq : δ = 2 + (b1 - 48) - (kk + 2) := by rw [hδdef]; rfl
        omega
      · rw [List.tail_cons, List.length_cons]
        omega

/-- One `keysight_read_header` pass from the invariant: either the declared
length is returned, or "incomplete" is returned with the invariant
re-established and the plan strictly shorter. -/
theorem readHeader_step (b1 : Nat) (field rest : List Nat)
    (hlo : 49 ≤ b1) (hhi : b1 ≤ 57) (hlen : field.length = b1 - 48)
    (hdig : ∀ c ∈ field, isDigitB c = true)
    (k : Nat) (caps : List Nat) (d : DevContext) (t : Transport)
    (hinv : HdrInv (35 :: b1 :: field) rest k caps d t) :
    (keysight_read_header d t).res = (digitsVal field : Int) ∨
    ((keysight_read_header d t).res = 0 ∧ ∃ k2 caps2, caps2.length < caps.length ∧
      HdrInv (35 :: b1 :: field) rest k2 caps2 (keysight_read_header d t).devc
        (keysight_read_header d t).t) := by
  obtain ⟨hbuf, hk, hdata, hplan⟩ := hinv
  have hH : (35 :: b1 :: field).length = 2 + (b1 - 48) := by
    simp only [List.length_cons, hlen]
    omega
  have hbuflen : d.headerBuf.length = k := by
    rw [hbuf, List.length_take]
    exact min_eq_left hk
  by_cases hk2 : k < 2
  case neg =>
    have hkey : keysight_read_header d t = hdrPhase2 d t := by
      unfold keysight_read_header
      rw [if_neg (by omega : ¬ d.headerBuf.length < 2)]
    rw [hkey]
    exact hdrPhase2_step b1 field rest hlo hhi hlen hdig k caps d t (by omega)
      ⟨hbuf, hk, hdata, hplan⟩
  case pos =>
    obtain ⟨tp, td, tl⟩ := t
    replace hdata : td = (35 :: b1 :: field).drop k ++ rest := hdata
    replace hplan : tp = caps.map some := hplan
    subst hdata
    subst hplan
    have hrd := readData_inv (35 :: b1 :: field) rest tl k 2 caps (by omega)
      (by simp)
    have hkey : keysight_read_header d
        ⟨caps.map some, (35 :: b1 :: field).drop k ++ rest, tl⟩ =
        hdrPhase1Cont d
          (some (((35 :: b1 :: field).drop k).take (hdrDelta caps (2 - k))),
           ⟨caps.tail.map some,
            (35 :: b1 :: field).drop (k + hdrDelta caps (2 - k)) ++ rest,
            tl ++ [2 - k]⟩) := by
      unfold keysight_read_header
      rw [if_pos (by omega : d.headerBuf.length < 2), hbuflen, hrd]
    rw [hkey]
    set δ := hdrDelta caps (2 - k) with hδdef
    have hδle : δ ≤ 2 - k := hdrDelta_le ..
    have hbslen : (((35 :: b1 :: field).drop k).take δ).length = δ := by
      rw [List.length_take, List.length_drop]
      exact min_eq_left (by omega)
    have hnewbuf : d.headerBuf ++ ((35 :: b1 :: field).drop k).take δ =
        (35 :: b1 :: field).take (k + δ) := by
      rw [hbuf, ← List.take_add]
    have hd1len : (d.headerBuf ++ ((35 :: b1 :: field).drop k).take δ).length =
        k + δ := by
      rw [List.length_append, hbuflen, hbslen]
    by_cases hdone : k + δ < 2
    · right
      simp only [hdrPhase1Cont]
      rw [if_pos (by rw [hd1len]; omega)]
      refine ⟨rfl, k + δ, caps.tail, ?_, hnewbuf, by omega, rfl, rfl⟩
      rcases caps with _ | ⟨c, caps2⟩
      · exfalso
        have hδeq : δ = 2 - k := by rw [hδdef]; rfl
        omega
      · rw [List.tail_cons, List.length_cons]
        omega
    · have h2eq : k + δ = 2 := by omega
      simp only [hdrPhase1Cont]
      rw [if_neg (by rw [hd1len]; omega)]
      have hinv2 : HdrInv (35 :: b1 :: field) rest 2 caps.tail
          { d with headerBuf := d.headerBuf ++ ((35 :: b1 :: field).drop k).take δ }
          ⟨caps.tail.map some, (35 :: b1 :: field).drop (k + δ) ++ rest,
            tl ++ [2 - k]⟩ := by
        refine ⟨?_, by simp, ?_, rfl⟩
        · rw [hnewbuf, h2eq]
        · rw [h2eq]
      have hstep := hdrPhase2_step b1 field rest hlo hhi hlen hdig 2 caps.tail
        { d with headerBuf := d.headerBuf ++ ((35 :: b1 :: field).drop k).take δ }
        ⟨caps.tail.map some, (35 :: b1 :: field).drop (k + δ) ++ rest,
          tl ++ [2 - k]⟩ (le_refl 2) hinv2
      have htl : caps.tail.length ≤ caps.length := by
        rw [List.length_tail]
        omega
      rcases hstep with h | ⟨h0, k3, caps3, hlt3, hinv3⟩
      · exact Or.inl h
      · exact Or.inr ⟨h0, k3, caps3, by omega, hinv3⟩

/-- Iterating `keysight_read_header` from the invariant with enough fuel
returns the declared length, for every delivery plan. -/
theorem runHeader_digits (b1 : Nat) (field rest : List Nat)
    (hlo : 49 ≤ b1) (hhi : b1 ≤ 57) (hlen : field.length = b1 - 48)
    (hdig : ∀ c ∈ field, isDigitB c = true) (hL : 1 ≤ digitsVal field) :
    ∀ (n k : Nat) (caps : List Nat) (d : DevContext) (t : Transport),
      HdrInv (35 :: b1 :: field) rest k caps d t → caps.length < n →
      (runHeader n d t).res = (digitsVal field : Int) := by
  intro n
  induction n with
  | zero =>
    intro k caps d t _ hn
    omega
  | succ n ih =>
    intro k caps d t hinv hn
    rcases readHeader_step b1 field rest hlo hhi hlen hdig k caps d t hinv with
      hres | ⟨hres0, k2, caps2, hlt, hinv2⟩
    · have hdv : digitsVal field ≠ 0 := by omega
      have hne : ¬ (keysight_read_header d t).res = 0 := by
        rw [hres]
        exact Nat.cast_ne_zero.2 hdv
      simp only [runHeader]
      rw [if_neg hne]
      exact hres
    · simp only [runHeader]
      rw [if_pos hres0]
      exact ih k2 caps2 _ _ hinv2 (by omega)

/-- `intToU64` is the identity on natural values below `2^64`. -/
theorem intToU64_ofNat (n : Nat) (h : n < 2 ^ 64) :
    intToU64 ((n : Nat) : Int) = n := by
  unfold intToU64
  rw [Int.emod_eq_of_lt (Int.ofNat_nonneg n) (by exact_mod_cast h)]
  exact Int.toNat_natCast n

/-- A reading-data context whose buffer holds the complete valid header `#10`
declaring a zero-length block. -/
def devcHdrL0 : DevContext := { sampleDev with headerBuf := [35, 49, 48] }

/-- Counterexample to C2 as stated: for the valid header `#10` (digit count 1,
declared length 0) the decoder's return value 0 is numerically the declared
length, but it is also the caller's sentinel for "header still incomplete":
the receive step records no block length, requests no payload bytes, emits
nothing, and leaves the context unchanged — the caller never treats the
result as the block's payload length. -/
theorem C2_counterexample :
    (keysight_read_header devcHdrL0 emptyT).res = 0 ∧
    (keysight_receive G_IO_IN true (some devcHdrL0) ⟨[some 0], [], []⟩ envAllOk
        (fun _ => 0)).devc.map DevContext.num_block_bytes = some 0 ∧
    (keysight_receive G_IO_IN true (some devcHdrL0) ⟨[some 0], [], []⟩ envAllOk
        (fun _ => 0)).t.log = [] ∧
    (keysight_receive G_IO_IN true (some devcHdrL0) ⟨[some 0], [], []⟩ envAllOk
        (fun _ => 0)).packets = [] ∧
    (keysight_receive G_IO_IN true (some devcHdrL0) ⟨[some 0], [], []⟩ envAllOk
        (fun _ => 0)).devc.map DevContext.headerBuf = some [35, 49, 48] := by
  decide

/-- C2 amended: for every valid header `#D<digits>` with `D ∈ 1..9` whose
field declares a length `L ≥ 1`, the incremental decoder eventually returns
exactly `L` for EVERY way the transport splits the header bytes across
successive read calls (arbitrary per-call delivery caps, one byte per call
included), and the receive step then records `L` as the current block's
payload length.  (For `L = 0` the decoder also returns the declared length 0,
but the caller conflates it with "header incomplete" — see the
counterexample.) -/
theorem C2_header_decoder (b1 : Nat) (field rest caps : List Nat)
    (d0 : DevContext) (hbuf0 : d0.headerBuf = [])
    (hlo : 49 ≤ b1) (hhi : b1 ≤ 57)
    (hlen : field.length = b1 - 48)
    (hdig : ∀ c ∈ field, isDigitB c = true)
    (hL : 1 ≤ digitsVal field) :
    (runHeader (caps.length + 1) d0
        ⟨caps.map some, (35 :: b1 :: field) ++ rest, []⟩).res =
      ((digitsVal field : Nat) : Int) ∧
    (∀ (devc : DevContext) (env : Env) (lg : ℚ → ℚ),
      devc.state = MachState.readingData →
      devc.headerBuf = 35 :: b1 :: field →
      devc.num_block_bytes = 0 →
      devc.num_channel_bytes < intToU64 devc.num_channel_bytes_total →
      (keysight_receive G_IO_IN true (some devc) ⟨[some 0], [], []⟩ env lg).devc.map
          DevContext.num_block_bytes = some (digitsVal field) ∧
      (keysight_receive G_IO_IN true (some devc) ⟨[some 0], [], []⟩ env lg).devc.map
          DevContext.num_block_read = some 0) := by
  constructor
  · exact runHeader_digits b1 field rest hlo hhi hlen hdig hL (caps.length + 1) 0
      caps d0 ⟨caps.map some, (35 :: b1 :: field) ++ rest, []⟩
      ⟨by rw [hbuf0]; rfl, by simp, rfl, rfl⟩ (by omega)
  · intro devc env lg hst hbufc hzero hmid
    have hho := readHeader_digits_full devc ⟨[some 0], [], []⟩ b1 field hbufc hlo
      hhi hlen hdig
    have hLne0 : ¬ ((digitsVal field : Nat) : Int) = 0 :=
      Nat.cast_ne_zero.2 (by omega)
    have hLneErr : ¬ ((digitsVal field : Nat) : Int) = SR_ERR := by
      rw [SR_ERR]
      have hge : (0 : Int) ≤ ((digitsVal field : Nat) : Int) := Int.ofNat_nonneg _
      omega
    have hsize : digitsVal field < 2 ^ 64 := by
      have h1 := digitsVal_lt field hdig
      have h2 : (10 : Nat) ^ field.length ≤ 10 ^ 9 :=
        Nat.pow_le_pow_right (by omega) (by omega)
      have h3 : (10 : Nat) ^ 9 = 1000000000 := by norm_num
      have h4 : (2 : Nat) ^ 64 = 18446744073709551616 := by norm_num
      omega
    have hu64 : intToU64 ((digitsVal field : Nat) : Int) = digitsVal field :=
      intToU64_ofNat _ hsize
    rw [receive_reading_unfold devc _ env lg hst]
    simp only [recvReading, hho]
    rw [if_pos hzero, if_neg hLne0, if_neg hLneErr]
    set devc2 : DevContext :=
      { devc with num_block_bytes := intToU64 ((digitsVal field : Nat) : Int),
                  num_block_read := 0 } with hdevc2
    have hdl0 : deliveredLen devc2 0 [] = 0 := by simp [deliveredLen]
    have hmid2 : devc2.num_channel_bytes + deliveredLen devc2 0 [] <
        intToU64 devc2.num_channel_bytes_total := by
      rw [hdl0]
      simpa [hdevc2] using hmid
    rw [recvBody_capped devc2 env lg _ 0 [] [] [] hmid2]
    have hnotc : ¬ (devc2.num_block_read + deliveredLen devc2 0 [] =
        devc2.num_block_bytes) := by
      rw [hdl0]
      show ¬ (0 + 0 = intToU64 ((digitsVal field : Nat) : Int))
      rw [hu64]
      omega
    simp only [if_neg hnotc]
    constructor
    · simp [hdevc2, hu64]
    · simp [hdevc2, hdl0]

/-- Witness for C2 amended at the spec's scenario-1 header `#900000001400`
(block length 1400), delivered one byte per read call. -/
theorem C2_witness :
    (runHeader ((List.replicate 11 1).length + 1) sampleDev
        ⟨(List.replicate 11 1).map some,
         (35 :: 57 :: [48, 48, 48, 48, 48, 49, 52, 48, 48]) ++ [], []⟩).res =
      ((digitsVal [48, 48, 48, 48, 48, 49, 52, 48, 48] : Nat) : Int) ∧
    (∀ (devc : DevContext) (env : Env) (lg : ℚ → ℚ),
      devc.state = MachState.readingData →
      devc.headerBuf = 35 :: 57 :: [48, 48, 48, 48, 48, 49, 52, 48, 48] →
      devc.num_block_bytes = 0 →
      devc.num_channel_bytes < intToU64 devc.num_channel_bytes_total →
      (keysight_receive G_IO_IN true (some devc) ⟨[some 0], [], []⟩ env lg).devc.map
          DevContext.num_block_bytes =
        some (digitsVal [48, 48, 48, 48, 48, 49, 52, 48, 48]) ∧
      (keysight_receive G_IO_IN true (some devc) ⟨[some 0], [], []⟩ env lg).devc.map
          DevContext.num_block_read = some 0) :=
  C2_header_decoder 57 [48, 48, 48, 48, 48, 49, 52, 48, 48] [] (List.replicate 11 1)
    sampleDev rfl (by decide) (by decide) (by decide) (by decide) (by decide)

end Keysight
